import Mathlib

/-!
# Linux system monitor: the render-and-control loop of `ncurses_display.cpp`

A shallow embedding of `src/ncurses_display.cpp` and the properties of its
formatter, sorter, selection state, message panel and kill protocol.

Conventions of the embedding

* `std::string` is a list of characters (`Str`).
* `int` is a mathematical integer reduced by `wrapInt` (two's complement, 32 bit)
  after each arithmetic operation; `size_t` is a natural number below `2 ^ 64`.
* `float` values are rationals; the rounding of an arithmetic result to the nearest
  representable float is a parameter `fl : ℚ → ℚ` of the functions that compute
  with floats (NaN and the infinities are outside the model).
* Library and operating-system services that the file calls but does not define
  (`std::sort`, `std::stof`, `kill(2)`) are parameters of the embedding.
-/

namespace SystemMonitor

/-! ## Machine integers and strings -/

/-- A `std::string`, as the sequence of its characters. -/
abbrev Str := List Char

/-- Reduction of an integer to the range of a 32-bit `int` (two's complement). -/
def wrapInt (x : Int) : Int := (x + 2147483648) % 4294967296 - 2147483648

/-- Conversion of an `int` to `size_t` (64 bit): reduction modulo `2 ^ 64`. -/
def toSizeT (x : Int) : Nat := (x % 18446744073709551616).toNat

/-- The call `s.substr(0, count)`: the first `count` characters, or all of `s` when it is
shorter. -/
def substr0 (s : Str) (count : Nat) : Str := s.take (min count s.length)

/-- Six decimal digits of a number below one million, leading zeros included. -/
def sixDigits (k : Nat) : Str :=
  [Nat.digitChar (k / 100000 % 10), Nat.digitChar (k / 10000 % 10),
   Nat.digitChar (k / 1000 % 10), Nat.digitChar (k / 100 % 10),
   Nat.digitChar (k / 10 % 10), Nat.digitChar (k % 10)]

/-- Rounding of a non-negative rational `a / b` to the nearest natural number, ties to even
(the rounding of `printf`). -/
def roundHalfEven (a b : Nat) : Nat :=
  let q := a / b
  let r := a % b
  if 2 * r < b then q
  else if b < 2 * r then q + 1
  else if q % 2 = 0 then q else q + 1

/-- The call `std::to_string(x)` for a floating-point `x`: the format `%f`, that is an optional
sign, the integer digits, a point and six decimals. -/
def to_string_float (x : ℚ) : Str :=
  let y := |x| * 1000000
  let m := roundHalfEven y.num.toNat y.den
  (if x < 0 then ['-'] else []) ++ Nat.toDigits 10 (m / 1000000) ++ ['.'] ++
    sixDigits (m % 1000000)

/-- The call `std::to_string(k)` for an `int`. -/
def to_string_int (k : Int) : Str :=
  if k < 0 then '-' :: Nat.toDigits 10 k.natAbs else Nat.toDigits 10 k.natAbs

/-! ## Formatter -/

/-- The double-precision constant `0.1` of the comparison `percent < 0.1`. -/
def double_0_1 : ℚ := 3602879701896397 / 36028797018963968

/-- `NCursesDisplay::ProgressBar`: the text `0%`, fifty cells, a blank, the percentage and
`/100%`. -/
def ProgressBar (fl : ℚ → ℚ) (percent : ℚ) : Str :=
  let result : Str := "0%".toList
  let size : Nat := 50
  let bars : ℚ := fl (percent * size)
  let result := (List.range size).foldl
    (fun (r : Str) (i : Nat) => r ++ [if (i : ℚ) ≤ bars then '|' else ' ']) result
  let display := substr0 (to_string_float (fl (percent * 100))) 4
  let display :=
    if percent < double_0_1 ∨ percent = 1 then
      " ".toList ++ substr0 (to_string_float (fl (percent * 100))) 3
    else display
  result ++ " ".toList ++ display ++ "/100%".toList

/-- The number of filled cells among the fifty bar cells of a progress bar. -/
def filledCells (fl : ℚ → ℚ) (percent : ℚ) : Nat :=
  (((ProgressBar fl percent).drop 2).take 50).count '|'

/-- The fifty cells of a bar whose float product is `bars`. -/
def barCells (bars : ℚ) : Str :=
  (List.range 50).map (fun (i : Nat) => if (i : ℚ) ≤ bars then '|' else ' ')

/-- The percentage text of a progress bar. -/
def barDisplay (fl : ℚ → ℚ) (percent : ℚ) : Str :=
  if percent < double_0_1 ∨ percent = 1 then
    " ".toList ++ substr0 (to_string_float (fl (percent * 100))) 3
  else substr0 (to_string_float (fl (percent * 100))) 4

/-! ## Data model -/

/-- The sorting mode enumeration. -/
inductive SortMode where
  | SORT_PID
  | SORT_CPU
  | SORT_RAM
deriving DecidableEq, Repr

/-- A process record, as read through the accessors `Pid()`, `User()`, `Command()`,
`CpuUtilization()`, `Ram()` and `UpTime()` of the class `Process`. -/
structure Process where
  pid : Int
  user : Str
  command : Str
  cpu : ℚ
  ram : Str
  upTime : Int
deriving DecidableEq, Repr

/-! ## Sorter -/

/-- A comparator handed to `std::sort`; `none` stands for a comparison that throws. -/
abbrev Comparator := Process → Process → Option Bool

/-- An implementation of `std::sort` on a vector of processes; `none` stands for an exception
that leaves the call. -/
abbrev SortFn := Comparator → List Process → Option (List Process)

/-- The comparator of `SORT_CPU`. -/
def compCpu : Comparator := fun a b => some (decide (a.cpu > b.cpu))

/-- The comparator of `SORT_RAM`; `stof` is `std::stof`, which throws (`none`) on a string
that it cannot convert. -/
def compRam (stof : Str → Option ℚ) : Comparator := fun a b =>
  match stof a.ram, stof b.ram with
  | some x, some y => some (decide (x > y))
  | _, _ => none

/-- The comparator of `SORT_PID`. -/
def compPid : Comparator := fun a b => some (decide (a.pid < b.pid))

/-- `SortProcesses`: a call of `std::sort` with the comparator of the current sort mode. -/
def SortProcesses (sort : SortFn) (stof : Str → Option ℚ) (currentSortMode : SortMode)
    (processes : List Process) : Option (List Process) :=
  match currentSortMode with
  | .SORT_CPU => sort compCpu processes
  | .SORT_RAM => sort (compRam stof) processes
  | .SORT_PID => sort compPid processes

/-! ## Renderer: the process rows -/

/-- One drawn row of the process panel: the texts written at the six columns, and whether the
row is drawn with `A_REVERSE`. The up time is kept as the value handed to
`Format::ElapsedTime`. -/
structure Row where
  pid : Str
  user : Str
  cpu : Str
  ram : Str
  upTime : Int
  command : Str
  highlighted : Bool
deriving DecidableEq, Repr

/-- The body of the row loop of `DisplayProcesses` for index `i` and record `p`; `maxx` is
`getmaxx(window)`. -/
def drawRow (fl : ℚ → ℚ) (selectedProcess maxx : Int) (i : Nat) (p : Process) : Row :=
  { pid := to_string_int p.pid
    user := p.user
    cpu := substr0 (to_string_float (fl (p.cpu * 100))) 4
    ram := p.ram
    upTime := p.upTime
    command := substr0 p.command (toSizeT (wrapInt (maxx - 46)))
    highlighted := decide ((i : Int) = selectedProcess) }

/-- The loop `for (int i = 0; i < n && i < processes.size(); ++i)`, started at index `i` with
the records from position `i` on. -/
def rowLoop (fl : ℚ → ℚ) (selectedProcess maxx n : Int) : Nat → List Process → List Row
  | _, [] => []
  | i, p :: rest =>
    if (i : Int) < n then
      drawRow fl selectedProcess maxx i p :: rowLoop fl selectedProcess maxx n (i + 1) rest
    else []

/-- `NCursesDisplay::DisplayProcesses`: sorts its own copy of the process list and draws the
first `n` rows of it. The result is the list of drawn rows (the header and the legend are not
part of it); `none` stands for an exception thrown while sorting. -/
def DisplayProcesses (sort : SortFn) (stof : Str → Option ℚ) (fl : ℚ → ℚ)
    (currentSortMode : SortMode) (selectedProcess : Int) (processes : List Process)
    (maxx n : Int) : Option (List Row) :=
  match SortProcesses sort stof currentSortMode processes with
  | none => none
  | some sorted => some (rowLoop fl selectedProcess maxx n 0 sorted)

/-! ## Terminator -/

/-- The signal number of `SIGTERM`. -/
def SIGTERM : Int := 15

/-- The signal number of `SIGKILL`. -/
def SIGKILL : Int := 9

/-- The operating system as seen by the kill protocol: its state, and the record of the
signals sent so far, each with the pid it was sent to. -/
structure World (σ : Type) where
  os : σ
  sent : List (Int × Int)
deriving DecidableEq, Repr

/-- One call `kill(pid, sig)`: the primitive `kill` of the operating system yields the return
value and the next state; the call is recorded. -/
def sysKill {σ : Type} (kill : σ → Int → Int → Int × σ) (w : World σ) (pid sig : Int) :
    Int × World σ :=
  let r := kill w.os pid sig
  (r.1, { os := r.2, sent := w.sent ++ [(pid, sig)] })

/-- `KillProcess`: `SIGTERM` first, `SIGKILL` when that fails. -/
def KillProcess {σ : Type} (kill : σ → Int → Int → Int × σ) (w : World σ) (pid : Int) :
    Bool × World σ :=
  let r₁ := sysKill kill w pid SIGTERM
  if r₁.1 = 0 then (true, r₁.2)
  else
    let r₂ := sysKill kill r₁.2 pid SIGKILL
    if r₂.1 = 0 then (true, r₂.2)
    else (false, r₂.2)

/-! ## Selection, sort state and message -/

/-- The mutable state of the loop: the two globals `currentSortMode` and `selectedProcess`,
and the locals `message` and `messageTime` of `Display`. -/
structure UiState where
  currentSortMode : SortMode
  selectedProcess : Int
  message : Str
  messageTime : Int
deriving DecidableEq, Repr

/-- The state when the loop is entered at time `t0`. -/
def initialState (t0 : Int) : UiState :=
  { currentSortMode := .SORT_CPU, selectedProcess := 0, message := [], messageTime := t0 }

/-- What an iteration does to the message window. -/
inductive MessageDraw where
  | drawn (text : Str)
  | cleared
  | untouched
deriving DecidableEq, Repr

/-- Ticks of `std::chrono::steady_clock` in a second (the clock counts nanoseconds). -/
def ticksPerSecond : Int := 1000000000

/-- The message block of an iteration, run at clock reading `now` on the locals `message` and
`messageTime`: a stored message younger than three whole seconds is drawn in a box, an older
one is wiped and forgotten. The result is what is done to the window and the new value of
`message`. -/
def messagePanel (message : Str) (messageTime now : Int) : MessageDraw × Str :=
  if message ≠ [] then
    let elapsed := Int.tdiv (now - messageTime) ticksPerSecond
    if elapsed < 3 then (.drawn message, message)
    else (.cleared, [])
  else (.untouched, message)

/-- The message blocks of successive iterations, run at the clock readings `ts`, while no
key stores a new message: what each does to the window, and the value of `message` after
it. -/
def messageTrace (message : Str) (messageTime : Int) : List Int → List (MessageDraw × Str)
  | [] => []
  | t :: ts =>
    messagePanel message messageTime t ::
      messageTrace (messagePanel message messageTime t).2 messageTime ts

/-! ## Input controller -/

/-- The value of `getch()` when no key is pending. -/
def ERR : Int := -1

/-- The key code of the down arrow. -/
def KEY_DOWN : Int := 258

/-- The key code of the up arrow. -/
def KEY_UP : Int := 259

/-- The key code of a character. -/
def keyOf (c : Char) : Int := c.toNat

/-- The keys whose handling may store a message (or leave the loop): the letters of the
dispatch table. -/
def letterKeys : List Int :=
  [keyOf 'q', keyOf 'Q', keyOf 'c', keyOf 'C', keyOf 'm', keyOf 'M', keyOf 'p', keyOf 'P',
   keyOf 'k', keyOf 'K']

/-- How an iteration ends: the loop goes on with a new state, the function returns after
`endwin()`, or the program leaves the modelled behaviour (an uncaught exception, or an access
outside the vector). -/
inductive Outcome (σ : Type) where
  | continue (st : UiState) (w : World σ)
  | quit (w : World σ)
  | fault
deriving DecidableEq, Repr

/-- The `switch (ch)` of `Display`, for a key `ch` other than `ERR`; `processes` is the list
fetched in this iteration, and `now` the clock reading when a message is stored. -/
def handleKey {σ : Type} (kill : σ → Int → Int → Int × σ) (n : Int)
    (processes : List Process) (ch now : Int) (st : UiState) (w : World σ) : Outcome σ :=
  if ch = keyOf 'q' ∨ ch = keyOf 'Q' then .quit w
  else if ch = keyOf 'c' ∨ ch = keyOf 'C' then
    .continue { currentSortMode := .SORT_CPU, selectedProcess := 0,
                message := "Sorting by CPU Usage".toList, messageTime := now } w
  else if ch = keyOf 'm' ∨ ch = keyOf 'M' then
    .continue { currentSortMode := .SORT_RAM, selectedProcess := 0,
                message := "Sorting by Memory/RAM Usage".toList, messageTime := now } w
  else if ch = keyOf 'p' ∨ ch = keyOf 'P' then
    .continue { currentSortMode := .SORT_PID, selectedProcess := 0,
                message := "Sorting by Process ID (PID)".toList, messageTime := now } w
  else if ch = KEY_UP then
    if st.selectedProcess > 0 then
      .continue { st with selectedProcess := wrapInt (st.selectedProcess - 1) } w
    else .continue st w
  else if ch = KEY_DOWN then
    if st.selectedProcess < wrapInt (n - 1) ∧
        st.selectedProcess < wrapInt (wrapInt processes.length - 1) then
      .continue { st with selectedProcess := wrapInt (st.selectedProcess + 1) } w
    else .continue st w
  else if ch = keyOf 'k' ∨ ch = keyOf 'K' then
    if st.selectedProcess < wrapInt processes.length then
      match processes[toSizeT st.selectedProcess]? with
      | none => .fault
      | some p =>
        let pid := p.pid
        let r := KillProcess kill w pid
        let message :=
          if r.1 then "Process ".toList ++ to_string_int pid ++ " killed successfully!".toList
          else "Failed to kill process ".toList ++ to_string_int pid ++
            ". Try with sudo.".toList
        .continue { st with message := message, messageTime := now } r.2
    else .continue st w
  else .continue st w

/-! ## Loop driver -/

/-- What the loop is run with: the library and system services, the width `maxx` of the
process window and the row count `n`. -/
structure Env (σ : Type) where
  sort : SortFn
  stof : Str → Option ℚ
  fl : ℚ → ℚ
  kill : σ → Int → Int → Int × σ
  maxx : Int
  n : Int

/-- What one iteration reads from outside: the process list of the provider, the clock when
the message is checked, the key returned by `getch()`, and the clock when the key is
handled. -/
structure TickInput where
  processes : List Process
  renderTime : Int
  ch : Int
  keyTime : Int

/-- What one iteration draws: the process rows and the message window. -/
structure Frame where
  rows : List Row
  messageDraw : MessageDraw
deriving DecidableEq, Repr

/-- One iteration of the `while (1)` loop of `Display`: draw the processes, check the message,
poll a key and handle it. -/
def iteration {σ : Type} (env : Env σ) (st : UiState) (w : World σ) (inp : TickInput) :
    Option Frame × Outcome σ :=
  match DisplayProcesses env.sort env.stof env.fl st.currentSortMode st.selectedProcess
      inp.processes env.maxx env.n with
  | none => (none, .fault)
  | some rows =>
    let m := messagePanel st.message st.messageTime inp.renderTime
    let frame : Frame := { rows := rows, messageDraw := m.1 }
    let st1 : UiState := { st with message := m.2 }
    if inp.ch ≠ ERR then
      (some frame, handleKey env.kill env.n inp.processes inp.ch inp.keyTime st1 w)
    else (some frame, .continue st1 w)

/-- The loop of `Display` over a finite run of iterations: the frames drawn, and how the run
stands after the last of them. -/
def displayLoop {σ : Type} (env : Env σ) : UiState → World σ → List TickInput →
    List Frame × Outcome σ
  | st, w, [] => ([], .continue st w)
  | st, w, inp :: rest =>
    match iteration env st w inp with
    | (f, .continue st1 w1) =>
      let r := displayLoop env st1 w1 rest
      (f.toList ++ r.1, r.2)
    | (f, out) => (f.toList, out)

/-- `NCursesDisplay::Display` over a finite run of iterations: the loop entered at clock reading
`t0` with the initial values of the globals and locals (sort mode CPU, selected index 0, no
message). -/
def Display {σ : Type} (env : Env σ) (t0 : Int) (w : World σ) (inputs : List TickInput) :
    List Frame × Outcome σ :=
  displayLoop env (initialState t0) w inputs

/-! ## The contract of `std::sort`, and reference sorts -/

/-- A strict weak ordering, the requirement of `std::sort` on its comparator. -/
structure StrictWeakOrder (lt : Process → Process → Bool) : Prop where
  irrefl : ∀ a, lt a a = false
  trans : ∀ a b c, lt a b = true → lt b c = true → lt a c = true
  incomp : ∀ a b c, lt a b = false → lt b a = false → lt b c = false → lt c b = false →
    lt a c = false ∧ lt c a = false

/-- The contract of `std::sort`: when the comparator does not throw on the elements of the
range and is a strict weak ordering `lt`, the call returns, and the range then holds a
permutation of its elements in which no element is `lt` an earlier one. Nothing is promised
about the order of equivalent elements. -/
def ConformingSort (sort : SortFn) : Prop :=
  ∀ (comp : Comparator) (lt : Process → Process → Bool) (xs : List Process),
    StrictWeakOrder lt → (∀ a ∈ xs, ∀ b ∈ xs, comp a b = some (lt a b)) →
    ∃ ys, sort comp xs = some ys ∧ ys.Perm xs ∧ ys.Pairwise (fun a b => lt b a = false)

/-- Insertion of `x` into a sorted list, in front of the first element that `x` is less
than. -/
def insertLate (comp : Comparator) (x : Process) : List Process → Option (List Process)
  | [] => some [x]
  | y :: ys =>
    match comp x y with
    | none => none
    | some true => some (x :: y :: ys)
    | some false =>
      match insertLate comp x ys with
      | none => none
      | some zs => some (y :: zs)

/-- An insertion sort that conforms to the contract of `std::sort`: it sorts the tail and
inserts the head with `insertLate`. -/
def insertionSortLate : SortFn
  | _, [] => some []
  | comp, x :: xs =>
    match insertionSortLate comp xs with
    | none => none
    | some ys => insertLate comp x ys

/-- The sort key of a record in a sort mode: the pid, the CPU utilisation, or the value
parsed from the memory string (0 when it does not parse). -/
def sortKey (stof : Str → Option ℚ) : SortMode → Process → ℚ
  | .SORT_PID, p => p.pid
  | .SORT_CPU, p => p.cpu
  | .SORT_RAM, p => (stof p.ram).getD 0

/-- The order of a sort mode on sort keys: ascending pid, descending CPU and memory. -/
def keyBefore (stof : Str → Option ℚ) (mode : SortMode) (a b : Process) : Bool :=
  match mode with
  | .SORT_PID => decide (sortKey stof mode a < sortKey stof mode b)
  | _ => decide (sortKey stof mode a > sortKey stof mode b)

/-- The stable sort of a process list in a sort mode. -/
def stableSort (stof : Str → Option ℚ) (mode : SortMode) (ps : List Process) : List Process :=
  ps.mergeSort (fun a b => !keyBefore stof mode b a)

/-- A stand-in for `std::stof` on strings of decimal digits. -/
def stofDigits (s : Str) : Option ℚ :=
  if s ≠ [] ∧ s.all Char.isDigit then
    some ((s.foldl (fun (acc : Nat) (c : Char) => 10 * acc + (c.toNat - 48)) 0 : Nat) : ℚ)
  else none

/-- A kill primitive that fails on every pid of the list held as its state. -/
def killUnless (dead : List Int) (pid _sig : Int) : Int × List Int :=
  (if pid ∈ dead then -1 else 0, dead)

/-- The largest process count among the iterations of a run. -/
def maxCount : List TickInput → Nat
  | [] => 0
  | inp :: rest => max inp.processes.length (maxCount rest)

/-! ## The `std::sort` of GNU libstdc++

The algorithm of `std::sort` in `bits/stl_algo.h` and `bits/stl_heap.h` of GNU libstdc++, on
a range held as a list and addressed by position. Loops run on a fuel that bounds their
length. -/

/-- `std::iter_swap` on positions `i` and `j` of the range. -/
def iterSwap (a : List Process) (i j : Nat) : Option (List Process) :=
  match a[i]?, a[j]? with
  | some x, some y => some ((a.set i y).set j x)
  | _, _ => none

/-- `std::__unguarded_linear_insert` for the value `val` taken from position `last`: elements
greater than `val` move one place up until one is found that is not. -/
def unguardedLinearInsert (comp : Comparator) (val : Process) :
    Nat → List Process → Nat → Option (List Process)
  | 0, _, _ => none
  | _ + 1, _, 0 => none
  | fuel + 1, a, next + 1 =>
    match a[next]? with
    | none => none
    | some y =>
      match comp val y with
      | none => none
      | some true => unguardedLinearInsert comp val fuel (a.set (next + 1) y) next
      | some false => some (a.set (next + 1) val)

/-- The loop of `std::__insertion_sort` on the range from `first`, at position `i`, with
`k` positions still to insert. -/
def insertionSortFrom (comp : Comparator) (first : Nat) :
    Nat → Nat → List Process → Option (List Process)
  | 0, _, a => some a
  | k + 1, i, a =>
    match a[i]?, a[first]? with
    | some x, some f =>
      match comp x f with
      | none => none
      | some true =>
        insertionSortFrom comp first k (i + 1)
          (a.take first ++ x :: (a.drop first).take (i - first) ++ a.drop (i + 1))
      | some false =>
        match unguardedLinearInsert comp x (i + 1) a i with
        | none => none
        | some a1 => insertionSortFrom comp first k (i + 1) a1
    | _, _ => none

/-- `std::__insertion_sort` on the range `[first, last)`. -/
def insertionSortRange (comp : Comparator) (a : List Process) (first last : Nat) :
    Option (List Process) :=
  if first = last then some a
  else insertionSortFrom comp first (last - (first + 1)) (first + 1) a

/-- `std::__unguarded_insertion_sort`: the loop at position `i`, with `k` positions still to
insert. -/
def unguardedInsertionSortFrom (comp : Comparator) :
    Nat → Nat → List Process → Option (List Process)
  | 0, _, a => some a
  | k + 1, i, a =>
    match a[i]? with
    | none => none
    | some x =>
      match unguardedLinearInsert comp x (i + 1) a i with
      | none => none
      | some a1 => unguardedInsertionSortFrom comp k (i + 1) a1

/-- `std::__final_insertion_sort` on the range `[first, last)`, with the threshold 16. -/
def finalInsertionSort (comp : Comparator) (a : List Process) (first last : Nat) :
    Option (List Process) :=
  if last - first > 16 then
    match insertionSortRange comp a first (first + 16) with
    | none => none
    | some a1 => unguardedInsertionSortFrom comp (last - (first + 16)) (first + 16) a1
  else insertionSortRange comp a first last

/-- `std::__move_median_to_first`: the median of the elements at `x`, `y`, `z` is swapped to
`result`. -/
def moveMedianToFirst (comp : Comparator) (a : List Process) (result x y z : Nat) :
    Option (List Process) :=
  match a[x]?, a[y]?, a[z]? with
  | some ax, some ay, some az =>
    match comp ax ay with
    | none => none
    | some true =>
      match comp ay az with
      | none => none
      | some true => iterSwap a result y
      | some false =>
        match comp ax az with
        | none => none
        | some true => iterSwap a result z
        | some false => iterSwap a result x
    | some false =>
      match comp ax az with
      | none => none
      | some true => iterSwap a result x
      | some false =>
        match comp ay az with
        | none => none
        | some true => iterSwap a result z
        | some false => iterSwap a result y
  | _, _, _ => none

/-- The loop `while (comp(first, pivot)) ++first` of `std::__unguarded_partition`. -/
def scanUp (comp : Comparator) (a : List Process) (pivot : Process) : Nat → Nat → Option Nat
  | 0, _ => none
  | fuel + 1, first =>
    match a[first]? with
    | none => none
    | some x =>
      match comp x pivot with
      | none => none
      | some true => scanUp comp a pivot fuel (first + 1)
      | some false => some first

/-- The loop `while (comp(pivot, last)) --last` of `std::__unguarded_partition`. -/
def scanDown (comp : Comparator) (a : List Process) (pivot : Process) : Nat → Nat → Option Nat
  | 0, _ => none
  | fuel + 1, last =>
    match a[last]? with
    | none => none
    | some x =>
      match comp pivot x with
      | none => none
      | some true =>
        match last with
        | 0 => none
        | l + 1 => scanDown comp a pivot fuel l
      | some false => some last

/-- `std::__unguarded_partition` with the pivot at position `pivot`: the range after the
partition and the cut. -/
def unguardedPartition (comp : Comparator) (pivot : Nat) :
    Nat → List Process → Nat → Nat → Option (List Process × Nat)
  | 0, _, _, _ => none
  | _ + 1, _, _, 0 => none
  | fuel + 1, a, first, last + 1 =>
    match a[pivot]? with
    | none => none
    | some p =>
      match scanUp comp a p (a.length + 1) first with
      | none => none
      | some first1 =>
        match scanDown comp a p (a.length + 1) last with
        | none => none
        | some last1 =>
          if ¬ (first1 < last1) then some (a, first1)
          else
            match iterSwap a first1 last1 with
            | none => none
            | some a1 => unguardedPartition comp pivot fuel a1 (first1 + 1) last1

/-- `std::__unguarded_partition_pivot` on the range `[first, last)`. -/
def unguardedPartitionPivot (comp : Comparator) (a : List Process) (first last : Nat) :
    Option (List Process × Nat) :=
  let mid := first + (last - first) / 2
  match moveMedianToFirst comp a first (first + 1) mid (last - 1) with
  | none => none
  | some a1 => unguardedPartition comp first (a.length + 1) a1 (first + 1) last

/-- `std::__push_heap` on the heap that starts at `first`: the value moves up from the hole
while its parent is less. -/
def pushHeap (comp : Comparator) (first topIndex : Nat) (value : Process) :
    Nat → List Process → Nat → Option (List Process)
  | 0, _, _ => none
  | fuel + 1, a, holeIndex =>
    let parent := (holeIndex - 1) / 2
    if holeIndex > topIndex then
      match a[first + parent]? with
      | none => none
      | some x =>
        match comp x value with
        | none => none
        | some true => pushHeap comp first topIndex value fuel (a.set (first + holeIndex) x) parent
        | some false => some (a.set (first + holeIndex) value)
    else some (a.set (first + holeIndex) value)

/-- The first loop of `std::__adjust_heap`: the hole moves down to the larger child. The
result is the range, the hole and the second child. -/
def adjustHeapDown (comp : Comparator) (first len : Nat) :
    Nat → List Process → Nat → Nat → Option (List Process × Nat × Nat)
  | 0, _, _, _ => none
  | fuel + 1, a, holeIndex, secondChild =>
    if secondChild < (len - 1) / 2 then
      let child := 2 * (secondChild + 1)
      match a[first + child]?, a[first + (child - 1)]? with
      | some x, some y =>
        match comp x y with
        | none => none
        | some c =>
          let child1 := if c then child - 1 else child
          match a[first + child1]? with
          | none => none
          | some z => adjustHeapDown comp first len fuel (a.set (first + holeIndex) z) child1 child1
      | _, _ => none
    else some (a, holeIndex, secondChild)

/-- `std::__adjust_heap` on the heap of `len` elements that starts at `first`. -/
def adjustHeap (comp : Comparator) (a : List Process) (first holeIndex len : Nat)
    (value : Process) : Option (List Process) :=
  match adjustHeapDown comp first len (len + 1) a holeIndex holeIndex with
  | none => none
  | some (a1, hole1, secondChild) =>
    if len % 2 = 0 ∧ secondChild = (len - 2) / 2 then
      let child := 2 * (secondChild + 1)
      match a1[first + (child - 1)]? with
      | none => none
      | some z =>
        pushHeap comp first holeIndex value (len + 1) (a1.set (first + hole1) z) (child - 1)
    else pushHeap comp first holeIndex value (len + 1) a1 hole1

/-- The loop of `std::__make_heap`, at the parent `parent`. -/
def makeHeapFrom (comp : Comparator) (first len : Nat) :
    Nat → List Process → Option (List Process)
  | parent, a =>
    match a[first + parent]? with
    | none => none
    | some value =>
      match adjustHeap comp a first parent len value with
      | none => none
      | some a1 =>
        match parent with
        | 0 => some a1
        | p + 1 => makeHeapFrom comp first len p a1

/-- `std::__make_heap` on the range `[first, last)`. -/
def makeHeap (comp : Comparator) (a : List Process) (first last : Nat) :
    Option (List Process) :=
  if last - first < 2 then some a
  else makeHeapFrom comp first (last - first) ((last - first - 2) / 2) a

/-- `std::__pop_heap` on the heap `[first, last)`, the top going to `result`. -/
def popHeap (comp : Comparator) (a : List Process) (first last result : Nat) :
    Option (List Process) :=
  match a[result]?, a[first]? with
  | some value, some top => adjustHeap comp (a.set result top) first 0 (last - first) value
  | _, _ => none

/-- `std::__sort_heap` on the heap `[first, last)`. -/
def sortHeap (comp : Comparator) (first : Nat) : Nat → List Process → Option (List Process)
  | 0, a => some a
  | last + 1, a =>
    if last + 1 - first > 1 then
      match popHeap comp a first last last with
      | none => none
      | some a1 => sortHeap comp first last a1
    else some a

/-- `std::__partial_sort` with `middle = last`: the heap sort of the range `[first, last)`. -/
def partialSort (comp : Comparator) (a : List Process) (first last : Nat) :
    Option (List Process) :=
  match makeHeap comp a first last with
  | none => none
  | some a1 => sortHeap comp first last a1

/-- `std::__introsort_loop` on the range `[first, last)`. -/
def introsortLoop (comp : Comparator) :
    Nat → List Process → Nat → Nat → Nat → Option (List Process)
  | 0, _, _, _, _ => none
  | fuel + 1, a, first, last, depthLimit =>
    if last - first > 16 then
      if depthLimit = 0 then partialSort comp a first last
      else
        match unguardedPartitionPivot comp a first last with
        | none => none
        | some (a1, cut) =>
          match introsortLoop comp fuel a1 cut last (depthLimit - 1) with
          | none => none
          | some a2 => introsortLoop comp fuel a2 first cut (depthLimit - 1)
    else some a

/-- `std::__lg`: the binary logarithm of a positive number, rounded down. -/
def lg : Nat → Nat → Nat
  | 0, _ => 0
  | fuel + 1, n => if n ≤ 1 then 0 else lg fuel (n / 2) + 1

/-- `std::sort` as implemented in GNU libstdc++ (`std::__sort` of `bits/stl_algo.h`): an
introsort loop with depth limit `2 * lg n`, then a final insertion sort. The result is `none`
when the comparator throws or a read leaves the range. -/
def libstdcxxSort : SortFn := fun comp a =>
  if a.length = 0 then some a
  else
    match introsortLoop comp (a.length + 1) a 0 a.length (lg a.length a.length * 2) with
    | none => none
    | some a1 => finalInsertionSort comp a1 0 a.length

/-! ## Example data -/

/-- The fraction 1/10. -/
def oneTenth : ℚ := ⟨1, 10, by decide, by decide⟩

/-- The fraction 1/2. -/
def oneHalf : ℚ := ⟨1, 2, by decide, by decide⟩

/-- The fraction 1/5. -/
def oneFifth : ℚ := ⟨1, 5, by decide, by decide⟩

/-- A snapshot of three processes with pids 10, 20, 30 and CPU fractions 0.1, 0.5, 0.2. -/
def snapshot3 : List Process :=
  [ { pid := 10, user := "root".toList, command := "init".toList, cpu := oneTenth,
      ram := "12".toList, upTime := 100 },
    { pid := 20, user := "alice".toList, command := "make".toList, cpu := oneHalf,
      ram := "340".toList, upTime := 50 },
    { pid := 30, user := "bob".toList, command := "vim".toList, cpu := oneFifth,
      ram := "7".toList, upTime := 10 } ]

/-- Stability of a sort result: two records with tied keys that occur in this order in the
input occur in this order in the output. -/
def PreservesTies (stof : Str → Option ℚ) (mode : SortMode) (input output : List Process) :
    Prop :=
  ∀ a b, keyBefore stof mode a b = false → keyBefore stof mode b a = false →
    List.Sublist [a, b] input → List.Sublist [a, b] output

/-- Two processes with the same CPU utilisation. -/
def tiedPair : List Process :=
  [ { pid := 1, user := "root".toList, command := "init".toList, cpu := oneHalf,
      ram := "12".toList, upTime := 100 },
    { pid := 2, user := "alice".toList, command := "make".toList, cpu := oneHalf,
      ram := "12".toList, upTime := 50 } ]

/-- An environment for concrete runs: the sort of GNU libstdc++, the digit parser, exact float
arithmetic, a kill primitive that succeeds on every live pid, a window 100 columns wide and
ten rows. -/
def demoEnv : Env (List Int) :=
  { sort := libstdcxxSort, stof := stofDigits, fl := id, kill := killUnless,
    maxx := 100, n := 10 }

/-- A world in which no process is dead and no signal has been sent. -/
def demoWorld : World (List Int) := { os := [], sent := [] }

/-- Two iterations on three processes, the down arrow pressed in each. -/
def shrinkingRun : List TickInput :=
  [ { processes := snapshot3, renderTime := 0, ch := KEY_DOWN, keyTime := 0 },
    { processes := snapshot3, renderTime := 500000000, ch := KEY_DOWN, keyTime := 500000000 } ]

/-- An iteration on the three-process snapshot in which `k` is pressed. -/
def killTick : TickInput :=
  { processes := snapshot3, renderTime := 0, ch := keyOf 'k', keyTime := 0 }

/-- An idle process: CPU utilisation 0. -/
def idleProcess (pid : Int) : Process :=
  { pid := pid, user := "root".toList, command := "sleep".toList, cpu := 0,
    ram := "1".toList, upTime := 0 }

/-- Seventeen idle processes, pids 1 to 17 in the provider's order. -/
def idle17 : List Process :=
  [1, 2, 3, 4, 5, 6, 7, 8, 9, 10, 11, 12, 13, 14, 15, 16, 17].map idleProcess

/-! ## Helper lemmas: formatter -/

theorem toDigitsCore_length_ge (b : Nat) :
    ∀ (fuel n : Nat) (ds : List Char), ds.length ≤ (Nat.toDigitsCore b fuel n ds).length := by
  intro fuel
  induction fuel with
  | zero => intro n ds; simp [Nat.toDigitsCore]
  | succ k ih =>
    intro n ds
    simp only [Nat.toDigitsCore]
    split
    · simp
    · exact le_trans (by simp) (ih _ _)

theorem toDigits_length_pos (b n : Nat) : 1 ≤ (Nat.toDigits b n).length := by
  unfold Nat.toDigits
  simp only [Nat.toDigitsCore]
  split
  · simp
  · exact le_trans (by simp) (toDigitsCore_length_ge b _ _ _)

/-- The text of a float in the format `%f` has at least eight characters. -/
theorem to_string_float_length (x : ℚ) : 8 ≤ (to_string_float x).length := by
  have h := toDigits_length_pos 10
    (roundHalfEven (|x| * 1000000).num.toNat (|x| * 1000000).den / 1000000)
  simp only [to_string_float, sixDigits, List.length_append, List.length_cons,
    List.length_nil]
  omega

theorem foldl_cells (c : Nat → Char) (l : List Nat) (r : Str) :
    l.foldl (fun (r : Str) (i : Nat) => r ++ [c i]) r = r ++ l.map c := by
  induction l generalizing r with
  | nil => simp
  | cons a t ih => simp [ih]

/-- The progress bar as the concatenation of its five parts. -/
theorem ProgressBar_eq (fl : ℚ → ℚ) (percent : ℚ) :
    ProgressBar fl percent =
      "0%".toList ++ barCells (fl (percent * 50)) ++ " ".toList ++ barDisplay fl percent
        ++ "/100%".toList := by
  simp only [ProgressBar, barCells, barDisplay, foldl_cells]
  norm_num

theorem barCells_length (bars : ℚ) : (barCells bars).length = 50 := by
  simp [barCells]

theorem barDisplay_length (fl : ℚ → ℚ) (percent : ℚ) : (barDisplay fl percent).length = 4 := by
  have h := to_string_float_length (fl (percent * 100))
  unfold barDisplay substr0
  split <;> simp <;> omega

theorem ProgressBar_cells (fl : ℚ → ℚ) (percent : ℚ) :
    ((ProgressBar fl percent).drop 2).take 50 = barCells (fl (percent * 50)) := by
  rw [ProgressBar_eq]
  have h := barCells_length (fl (percent * 50))
  simp only [List.append_assoc]
  rw [show "0%".toList = ['0', '%'] from rfl]
  simp only [List.cons_append, List.nil_append, List.drop_succ_cons, List.drop_zero]
  rw [List.take_append_of_le_length (by omega)]
  exact List.take_of_length_le (by omega)

theorem barCells_count (bars : ℚ) :
    (barCells bars).count '|' = (List.range 50).countP (fun (i : Nat) => decide ((i : ℚ) ≤ bars)) := by
  unfold barCells
  rw [List.count, List.countP_map]
  congr 1
  funext i
  by_cases h : (i : ℚ) ≤ bars <;> simp [h]

theorem barCells_getElem (bars : ℚ) (i : Nat) (hi : i < 50) :
    (barCells bars)[i]? = some (if (i : ℚ) ≤ bars then '|' else ' ') := by
  unfold barCells
  simp [List.getElem?_map, List.getElem?_range hi]

/-- Claim C9. For every fraction (in particular every `f` in `[0, 1]`) the progress bar is the
text `0%`, then exactly fifty cells, cell `i` being `|` when `i ≤ f * 50` (the product as
computed in `float`) and blank otherwise, then a blank, four characters of percentage and
`/100%`; its length is 62 whatever the fraction, and the number of filled cells does not
decrease when the fraction grows (rounding to `float` being monotone). -/
theorem ProgressBar_shape (fl : ℚ → ℚ) (hfl : Monotone fl) (f g : ℚ)
    (hfg : f ≤ g) :
    (ProgressBar fl f).take 2 = "0%".toList ∧
    (∀ i : Nat, i < 50 →
      (ProgressBar fl f)[2 + i]? = some (if (i : ℚ) ≤ fl (f * 50) then '|' else ' ')) ∧
    (ProgressBar fl f)[52]? = some ' ' ∧
    ((ProgressBar fl f).drop 53).length = 4 + 5 ∧
    (ProgressBar fl f).drop 57 = "/100%".toList ∧
    (ProgressBar fl f).length = 62 ∧
    (ProgressBar fl g).length = 62 ∧
    filledCells fl f ≤ filledCells fl g := by
  have hc := barCells_length (fl (f * 50))
  have hd := barDisplay_length fl f
  have hlen : ∀ x, (ProgressBar fl x).length = 62 := by
    intro x
    rw [ProgressBar_eq]
    simp [barCells_length, barDisplay_length]
  have hsplit : ProgressBar fl f =
      ("0%".toList ++ barCells (fl (f * 50))) ++
        (" ".toList ++ (barDisplay fl f ++ "/100%".toList)) := by
    rw [ProgressBar_eq]; simp only [List.append_assoc]
  have hl1 : ("0%".toList ++ barCells (fl (f * 50))).length = 52 := by
    simp [barCells_length]
  refine ⟨?_, ?_, ?_, ?_, ?_, hlen f, hlen g, ?_⟩
  · rw [ProgressBar_eq]; rfl
  · intro i hi
    rw [hsplit, List.getElem?_append_left (by omega)]
    rw [List.getElem?_append_right (by simp)]
    simpa using barCells_getElem (fl (f * 50)) i hi
  · rw [hsplit, List.getElem?_append_right (by omega), hl1]
    simp
  · rw [List.length_drop, hlen f]
  · rw [hsplit]
    have h57 : 57 = ("0%".toList ++ barCells (fl (f * 50))).length + 5 := by omega
    rw [h57, List.drop_append]
    have h5 : 5 = (" ".toList ++ barDisplay fl f).length := by simp [hd]
    rw [← List.append_assoc, show (5 : Nat) = (" ".toList ++ barDisplay fl f).length + 0 from h5,
      List.drop_append]
    rfl
  · unfold filledCells
    rw [ProgressBar_cells, ProgressBar_cells, barCells_count, barCells_count]
    apply List.countP_mono_left
    intro i _ hi
    simp only [decide_eq_true_eq] at hi ⊢
    exact le_trans hi (hfl (mul_le_mul_of_nonneg_right hfg (by norm_num)))

/-! ## Sorter -/

theorem StrictWeakOrder.asymm {lt : Process → Process → Bool} (h : StrictWeakOrder lt)
    {a b : Process} (hab : lt a b = true) : lt b a = false := by
  cases hba : lt b a with
  | false => rfl
  | true =>
    have h1 := h.trans a b a hab hba
    rw [h.irrefl a] at h1
    exact h1.symm

/-- Insertion into a sorted list gives a sorted permutation, for a comparator that agrees with
a strict weak ordering on the elements. -/
theorem insertLate_spec {comp : Comparator} {lt : Process → Process → Bool}
    (hlt : StrictWeakOrder lt) (x : Process) :
    ∀ ys : List Process, (∀ b ∈ ys, comp x b = some (lt x b)) →
      ys.Pairwise (fun a b => lt b a = false) →
      ∃ zs, insertLate comp x ys = some zs ∧ zs.Perm (x :: ys) ∧
        zs.Pairwise (fun a b => lt b a = false) := by
  intro ys
  induction ys with
  | nil => intro _ _; exact ⟨[x], rfl, List.Perm.refl _, List.pairwise_singleton _ _⟩
  | cons y ys ih =>
    intro hc hs
    have hy := hc y (List.mem_cons_self _ _)
    rw [List.pairwise_cons] at hs
    cases hxy : lt x y with
    | true =>
      refine ⟨x :: y :: ys, ?_, List.Perm.refl _, ?_⟩
      · simp [insertLate, hy, hxy]
      · refine List.pairwise_cons.mpr ⟨?_, List.pairwise_cons.mpr hs⟩
        intro b hb
        rcases List.mem_cons.mp hb with rfl | hb
        · exact hlt.asymm hxy
        · cases hbx : lt b x with
          | false => rfl
          | true =>
            have := hlt.trans b x y hbx hxy
            rw [hs.1 b hb] at this
            exact this.symm
    | false =>
      obtain ⟨zs, hz, hperm, hsorted⟩ := ih (fun b hb => hc b (List.mem_cons_of_mem _ hb)) hs.2
      refine ⟨y :: zs, ?_, ?_, ?_⟩
      · simp [insertLate, hy, hxy, hz]
      · exact (List.Perm.cons y hperm).trans (List.Perm.swap x y ys)
      · refine List.pairwise_cons.mpr ⟨?_, hsorted⟩
        intro b hb
        rcases List.mem_cons.mp (hperm.mem_iff.mp hb) with rfl | hb
        · exact hxy
        · exact hs.1 b hb

/-- The insertion sort meets the contract of `std::sort`. -/
theorem insertionSortLate_conforming : ConformingSort insertionSortLate := by
  intro comp lt xs hlt
  induction xs with
  | nil => intro _; exact ⟨[], rfl, List.Perm.refl _, List.Pairwise.nil⟩
  | cons x xs ih =>
    intro hc
    obtain ⟨ys, hy, hperm, hsorted⟩ :=
      ih (fun a ha b hb => hc a (List.mem_cons_of_mem _ ha) b (List.mem_cons_of_mem _ hb))
    obtain ⟨zs, hz, hperm2, hsorted2⟩ := @insertLate_spec comp lt hlt x ys
      (fun b hb => hc x (List.mem_cons_self _ _) b
        (List.mem_cons_of_mem _ (hperm.mem_iff.mp hb))) hsorted
    refine ⟨zs, ?_, hperm2.trans (List.Perm.cons x hperm), hsorted2⟩
    simp [insertionSortLate, hy, hz]

/-- The order of a sort mode on sort keys is a strict weak ordering. -/
theorem keyBefore_strictWeak (stof : Str → Option ℚ) (mode : SortMode) :
    StrictWeakOrder (keyBefore stof mode) := by
  constructor
  · intro a; cases mode <;> simp [keyBefore]
  · intro a b c; cases mode <;> simp only [keyBefore, decide_eq_true_eq] <;> intro h1 h2 <;>
      linarith
  · intro a b c
    cases mode <;> simp only [keyBefore, decide_eq_false_iff_not, not_lt, gt_iff_lt] <;>
      intro h1 h2 h3 h4 <;> constructor <;> linarith

/-- On a list whose memory strings parse, the comparator of each sort mode does not throw and
is the order on sort keys. -/
theorem comp_eq_keyBefore (stof : Str → Option ℚ) (mode : SortMode) (ps : List Process)
    (hp : mode = .SORT_RAM → ∀ p ∈ ps, (stof p.ram).isSome = true) :
    ∀ a ∈ ps, ∀ b ∈ ps,
      (match mode with
        | .SORT_CPU => compCpu
        | .SORT_RAM => compRam stof
        | .SORT_PID => compPid) a b = some (keyBefore stof mode a b) := by
  intro a ha b hb
  cases mode with
  | SORT_PID => simp [compPid, keyBefore, sortKey]
  | SORT_CPU => simp [compCpu, keyBefore, sortKey]
  | SORT_RAM =>
    obtain ⟨x, hx⟩ := Option.isSome_iff_exists.mp (hp rfl a ha)
    obtain ⟨y, hy⟩ := Option.isSome_iff_exists.mp (hp rfl b hb)
    simp [compRam, keyBefore, sortKey, hx, hy]

/-- With a `std::sort` that meets its contract, `SortProcesses` returns a permutation of the
list in the order of the sort mode. -/
theorem SortProcesses_conforming {sort : SortFn} (hs : ConformingSort sort)
    (stof : Str → Option ℚ) (mode : SortMode) (ps : List Process)
    (hp : mode = .SORT_RAM → ∀ p ∈ ps, (stof p.ram).isSome = true) :
    ∃ ys, SortProcesses sort stof mode ps = some ys ∧ ys.Perm ps ∧
      ys.Pairwise (fun a b => keyBefore stof mode b a = false) := by
  have h := hs _ (keyBefore stof mode) ps (keyBefore_strictWeak stof mode)
    (comp_eq_keyBefore stof mode ps hp)
  cases mode <;> exact h

theorem snapshot3_cpu_order :
    ∀ ys ∈ snapshot3.permutations', ys.Pairwise (fun a b => a.cpu ≥ b.cpu) →
      ys.map Process.pid = [20, 30, 10] := by
  decide

theorem snapshot3_pid_order :
    ∀ ys ∈ snapshot3.permutations', ys.Pairwise (fun a b => a.pid ≤ b.pid) →
      ys.map Process.pid = [10, 20, 30] := by
  decide

theorem keyBefore_pid (stof : Str → Option ℚ) (a b : Process) :
    keyBefore stof .SORT_PID b a = false ↔ a.pid ≤ b.pid := by
  simp [keyBefore, sortKey]

theorem keyBefore_cpu (stof : Str → Option ℚ) (a b : Process) :
    keyBefore stof .SORT_CPU b a = false ↔ a.cpu ≥ b.cpu := by
  simp [keyBefore, sortKey]

theorem keyBefore_ram (stof : Str → Option ℚ) (a b : Process) :
    keyBefore stof .SORT_RAM b a = false ↔ (stof a.ram).getD 0 ≥ (stof b.ram).getD 0 := by
  simp [keyBefore, sortKey]

/-- The CPU fractions of the example snapshot are 0.1, 0.5 and 0.2. -/
theorem example_fractions :
    oneTenth = 1 / 10 ∧ oneHalf = 1 / 2 ∧ oneFifth = 1 / 5 := by
  refine ⟨?_, ?_, ?_⟩
  · rw [oneTenth, Rat.mk'_eq_divInt, Rat.divInt_eq_div]; norm_num
  · rw [oneHalf, Rat.mk'_eq_divInt, Rat.divInt_eq_div]; norm_num
  · rw [oneFifth, Rat.mk'_eq_divInt, Rat.divInt_eq_div]; norm_num

/-- The algorithm of GNU libstdc++ on the example snapshot, in the three sort modes. -/
theorem libstdcxx_sort_snapshot3 :
    (SortProcesses libstdcxxSort stofDigits .SORT_CPU snapshot3).map (List.map Process.pid)
      = some [20, 30, 10] ∧
    (SortProcesses libstdcxxSort stofDigits .SORT_PID snapshot3).map (List.map Process.pid)
      = some [10, 20, 30] ∧
    (SortProcesses libstdcxxSort stofDigits .SORT_RAM snapshot3).map (List.map Process.pid)
      = some [20, 10, 30] := by
  decide

/-- Claim C2. With any `std::sort` that meets its contract, `SortProcesses` returns a
permutation of its input that is ascending in pid under `SORT_PID`, non-increasing in CPU
utilisation under `SORT_CPU`, and non-increasing in the parsed memory value under `SORT_RAM`
(the memory strings being parsable); the snapshot with pids 10, 20, 30 and CPU fractions 0.1,
0.5, 0.2 comes out as 20, 30, 10 under `SORT_CPU` and as 10, 20, 30 under `SORT_PID`. -/
theorem SortProcesses_sorted (sort : SortFn) (hs : ConformingSort sort)
    (stof : Str → Option ℚ) (mode : SortMode) (ps : List Process)
    (hp : mode = .SORT_RAM → ∀ p ∈ ps, (stof p.ram).isSome = true) :
    (∃ ys, SortProcesses sort stof mode ps = some ys ∧ ys.Perm ps ∧
      (mode = .SORT_PID → ys.Pairwise (fun a b => a.pid ≤ b.pid)) ∧
      (mode = .SORT_CPU → ys.Pairwise (fun a b => a.cpu ≥ b.cpu)) ∧
      (mode = .SORT_RAM → ys.Pairwise (fun a b =>
        ∀ x y, stof a.ram = some x → stof b.ram = some y → x ≥ y))) ∧
    (SortProcesses sort stof .SORT_CPU snapshot3).map (List.map Process.pid)
      = some [20, 30, 10] ∧
    (SortProcesses sort stof .SORT_PID snapshot3).map (List.map Process.pid)
      = some [10, 20, 30] := by
  refine ⟨?_, ?_, ?_⟩
  · obtain ⟨ys, hy, hperm, hsorted⟩ := SortProcesses_conforming hs stof mode ps hp
    refine ⟨ys, hy, hperm, ?_, ?_, ?_⟩
    · rintro rfl
      exact hsorted.imp (fun {a b} h => (keyBefore_pid stof a b).mp h)
    · rintro rfl
      exact hsorted.imp (fun {a b} h => (keyBefore_cpu stof a b).mp h)
    · rintro rfl
      refine hsorted.imp (fun {a b} h => ?_)
      intro x y hx hy
      have := (keyBefore_ram stof a b).mp h
      simpa [hx, hy] using this
  · obtain ⟨ys, hy, hperm, hsorted⟩ :=
      SortProcesses_conforming hs stof .SORT_CPU snapshot3 (by simp)
    rw [hy]
    simp only [Option.map_some']
    exact congrArg some (snapshot3_cpu_order ys (List.mem_permutations'.mpr hperm)
      (hsorted.imp (fun {a b} h => (keyBefore_cpu stof a b).mp h)))
  · obtain ⟨ys, hy, hperm, hsorted⟩ :=
      SortProcesses_conforming hs stof .SORT_PID snapshot3 (by simp)
    rw [hy]
    simp only [Option.map_some']
    exact congrArg some (snapshot3_pid_order ys (List.mem_permutations'.mpr hperm)
      (hsorted.imp (fun {a b} h => (keyBefore_pid stof a b).mp h)))

/-- The statement of `SortProcesses_sorted` for the insertion sort, the digit parser, the mode
`SORT_RAM` and the example snapshot. -/
theorem SortProcesses_sorted_witness :
    ConformingSort insertionSortLate ∧
    (SortMode.SORT_RAM = .SORT_RAM → ∀ p ∈ snapshot3, (stofDigits p.ram).isSome = true) ∧
    ((∃ ys, SortProcesses insertionSortLate stofDigits .SORT_RAM snapshot3 = some ys ∧
      ys.Perm snapshot3 ∧
      (SortMode.SORT_RAM = .SORT_PID → ys.Pairwise (fun a b => a.pid ≤ b.pid)) ∧
      (SortMode.SORT_RAM = .SORT_CPU → ys.Pairwise (fun a b => a.cpu ≥ b.cpu)) ∧
      (SortMode.SORT_RAM = .SORT_RAM → ys.Pairwise (fun a b =>
        ∀ x y, stofDigits a.ram = some x → stofDigits b.ram = some y → x ≥ y))) ∧
    (SortProcesses insertionSortLate stofDigits .SORT_CPU snapshot3).map (List.map Process.pid)
      = some [20, 30, 10] ∧
    (SortProcesses insertionSortLate stofDigits .SORT_PID snapshot3).map (List.map Process.pid)
      = some [10, 20, 30]) :=
  ⟨insertionSortLate_conforming, by decide,
    SortProcesses_sorted insertionSortLate insertionSortLate_conforming stofDigits .SORT_RAM
      snapshot3 (by decide)⟩

theorem keyBefore_false_iff (stof : Str → Option ℚ) (mode : SortMode) (a b : Process) :
    keyBefore stof mode b a = false ↔
      (if mode = .SORT_PID then sortKey stof mode a ≤ sortKey stof mode b
       else sortKey stof mode b ≤ sortKey stof mode a) := by
  cases mode <;> simp [keyBefore]

theorem stableSort_perm (stof : Str → Option ℚ) (mode : SortMode) (ps : List Process) :
    (stableSort stof mode ps).Perm ps :=
  List.mergeSort_perm ps _

theorem keyLe_trans (stof : Str → Option ℚ) (mode : SortMode) (a b c : Process) :
    (!keyBefore stof mode b a) = true → (!keyBefore stof mode c b) = true →
      (!keyBefore stof mode c a) = true := by
  simp only [Bool.not_eq_true', keyBefore_false_iff]
  cases mode <;> simp <;> intro h1 h2 <;> linarith

theorem keyLe_total (stof : Str → Option ℚ) (mode : SortMode) (a b : Process) :
    (!keyBefore stof mode b a || !keyBefore stof mode a b) = true := by
  simp only [Bool.or_eq_true, Bool.not_eq_true', keyBefore_false_iff]
  cases mode <;> simp <;> exact le_total _ _

theorem stableSort_sorted (stof : Str → Option ℚ) (mode : SortMode) (ps : List Process) :
    (stableSort stof mode ps).Pairwise (fun a b => keyBefore stof mode b a = false) := by
  have h : (stableSort stof mode ps).Pairwise
      (fun a b => (!keyBefore stof mode b a) = true) :=
    List.sorted_mergeSort (keyLe_trans stof mode) (keyLe_total stof mode) ps
  exact h.imp (fun {a b} hab => by simpa using hab)

/-- The stable sort keeps tied records in the order of the input. -/
theorem stableSort_stable (stof : Str → Option ℚ) (mode : SortMode) (ps : List Process) :
    PreservesTies stof mode ps (stableSort stof mode ps) := by
  intro a b _ hba hsub
  have hab : (!keyBefore stof mode b a) = true := by simpa using hba
  exact List.pair_sublist_mergeSort (keyLe_trans stof mode) (keyLe_total stof mode) hab hsub

/-- Two permutations of one list that are both in the order of a sort mode have the same
sequence of sort keys. -/
theorem sorted_keys_unique (stof : Str → Option ℚ) (mode : SortMode) {ys zs : List Process}
    (hperm : ys.Perm zs)
    (hy : ys.Pairwise (fun a b => keyBefore stof mode b a = false))
    (hz : zs.Pairwise (fun a b => keyBefore stof mode b a = false)) :
    ys.map (sortKey stof mode) = zs.map (sortKey stof mode) := by
  have hpm := hperm.map (sortKey stof mode)
  by_cases hm : mode = .SORT_PID
  · have h1 : (ys.map (sortKey stof mode)).Sorted (· ≤ ·) :=
      List.pairwise_map.mpr (hy.imp (fun {a b} h => by
        have := (keyBefore_false_iff stof mode a b).mp h
        simpa [hm] using this))
    have h2 : (zs.map (sortKey stof mode)).Sorted (· ≤ ·) :=
      List.pairwise_map.mpr (hz.imp (fun {a b} h => by
        have := (keyBefore_false_iff stof mode a b).mp h
        simpa [hm] using this))
    exact List.eq_of_perm_of_sorted hpm h1 h2
  · have h1 : (ys.map (sortKey stof mode)).Sorted (· ≥ ·) :=
      List.pairwise_map.mpr (hy.imp (fun {a b} h => by
        have := (keyBefore_false_iff stof mode a b).mp h
        simpa [hm] using this))
    have h2 : (zs.map (sortKey stof mode)).Sorted (· ≥ ·) :=
      List.pairwise_map.mpr (hz.imp (fun {a b} h => by
        have := (keyBefore_false_iff stof mode a b).mp h
        simpa [hm] using this))
    exact List.eq_of_perm_of_sorted hpm h1 h2

theorem map_eq_of_injOn {f : Process → ℚ} :
    ∀ (ys zs : List Process), (∀ a ∈ ys, ∀ b ∈ zs, f a = f b → a = b) →
      ys.map f = zs.map f → ys = zs := by
  intro ys
  induction ys with
  | nil => intro zs _ h; cases zs with
    | nil => rfl
    | cons z zs => simp at h
  | cons y ys ih =>
    intro zs hinj h
    cases zs with
    | nil => simp at h
    | cons z zs =>
      simp only [List.map_cons, List.cons.injEq] at h
      have hyz := hinj y (List.mem_cons_self _ _) z (List.mem_cons_self _ _) h.1
      rw [hyz, ih zs (fun a ha b hb => hinj a (List.mem_cons_of_mem _ ha) b
        (List.mem_cons_of_mem _ hb)) h.2]

/-- Claim C3, counterexample. With the `std::sort` of GNU libstdc++, `SortProcesses` under
`SORT_CPU` turns seventeen idle processes with pids 1 to 17 into the order 9, 17, 16, ..., 10,
1, 8, 7, ..., 2: pid 9 now precedes pid 1, although both have the same CPU utilisation and pid
1 came first. The contract of `std::sort` allows this already for two records: a sort that
meets it puts two records with the same CPU utilisation in the opposite order of the
provider's list. -/
theorem stability_counterexample :
    (SortProcesses libstdcxxSort stofDigits .SORT_CPU idle17 =
      some ([9, 17, 16, 15, 14, 13, 12, 11, 10, 1, 8, 7, 6, 5, 4, 3, 2].map idleProcess) ∧
    ¬ PreservesTies stofDigits .SORT_CPU idle17
      ([9, 17, 16, 15, 14, 13, 12, 11, 10, 1, 8, 7, 6, 5, 4, 3, 2].map idleProcess)) ∧
    (ConformingSort insertionSortLate ∧
    SortProcesses insertionSortLate stofDigits .SORT_CPU tiedPair = some tiedPair.reverse ∧
    ¬ PreservesTies stofDigits .SORT_CPU tiedPair tiedPair.reverse) := by
  refine ⟨⟨by decide, ?_⟩, insertionSortLate_conforming, by decide, ?_⟩
  · intro h
    have := h (idleProcess 1) (idleProcess 9) (by decide) (by decide) (by decide)
    revert this
    decide
  · intro h
    have := h tiedPair[0] tiedPair[1] (by decide) (by decide) (by decide)
    revert this
    decide

/-- Claim C3, amended. The stable sort keeps tied records in the provider's order, and the
result of `SortProcesses` (with any `std::sort` that meets its contract) is a permutation of
the stably sorted list that has the same sort key at every position: the two differ at most in
the order of records with equal keys. When no two records of the list have equal keys the
result is the stably sorted list itself. -/
theorem SortProcesses_ties (sort : SortFn) (hs : ConformingSort sort)
    (stof : Str → Option ℚ) (mode : SortMode) (ps : List Process)
    (hp : mode = .SORT_RAM → ∀ p ∈ ps, (stof p.ram).isSome = true) :
    PreservesTies stof mode ps (stableSort stof mode ps) ∧
    ∃ ys, SortProcesses sort stof mode ps = some ys ∧
      ys.Perm (stableSort stof mode ps) ∧
      ys.map (sortKey stof mode) = (stableSort stof mode ps).map (sortKey stof mode) ∧
      ((∀ a ∈ ps, ∀ b ∈ ps, sortKey stof mode a = sortKey stof mode b → a = b) →
        ys = stableSort stof mode ps ∧ PreservesTies stof mode ps ys) := by
  refine ⟨stableSort_stable stof mode ps, ?_⟩
  obtain ⟨ys, hy, hperm, hsorted⟩ := SortProcesses_conforming hs stof mode ps hp
  have hperm2 : ys.Perm (stableSort stof mode ps) :=
    hperm.trans (stableSort_perm stof mode ps).symm
  have hkeys := sorted_keys_unique stof mode hperm2 hsorted (stableSort_sorted stof mode ps)
  refine ⟨ys, hy, hperm2, hkeys, ?_⟩
  intro hinj
  have heq : ys = stableSort stof mode ps :=
    map_eq_of_injOn ys _ (fun a ha b hb => hinj a (hperm.mem_iff.mp ha) b
      ((stableSort_perm stof mode ps).mem_iff.mp hb)) hkeys
  exact ⟨heq, heq ▸ stableSort_stable stof mode ps⟩

/-! ## Terminator, selection and sort keys -/

/-- Claim C4. `KillProcess` first sends `SIGTERM`; when that call returns 0 it returns `true`
and has sent nothing else; otherwise it sends `SIGKILL` and returns whether that call returned
0. It returns `false` exactly when both calls fail, and it is a total function (it never
raises). -/
theorem KillProcess_protocol {σ : Type} (kill : σ → Int → Int → Int × σ) (w : World σ)
    (pid : Int) :
    KillProcess kill w pid =
      (if (kill w.os pid SIGTERM).1 = 0 then
        (true, { os := (kill w.os pid SIGTERM).2, sent := w.sent ++ [(pid, SIGTERM)] })
      else
        (decide ((kill (kill w.os pid SIGTERM).2 pid SIGKILL).1 = 0),
          { os := (kill (kill w.os pid SIGTERM).2 pid SIGKILL).2,
            sent := w.sent ++ [(pid, SIGTERM), (pid, SIGKILL)] })) ∧
    ((KillProcess kill w pid).1 = false ↔
      ((kill w.os pid SIGTERM).1 ≠ 0 ∧ (kill (kill w.os pid SIGTERM).2 pid SIGKILL).1 ≠ 0)) := by
  constructor
  · simp only [KillProcess, sysKill]
    split
    · rfl
    · split <;> simp_all
  · simp only [KillProcess, sysKill]
    split
    · simp_all
    · split <;> simp_all

/-- A value in the range of `int` is not changed by `wrapInt`. -/
theorem wrapInt_id {x : Int} (h1 : -2147483648 ≤ x) (h2 : x < 2147483648) : wrapInt x = x := by
  unfold wrapInt; omega

/-- Claim C5. For a row count `n` (an `int` other than `INT_MIN`), any process list and a
selected index inside `[0, max 0 (min n count - 1)]`, handling the up or the down arrow keeps the
loop running with a selected index inside the same range that differs from the old one by at
most 1; with no process the index stays 0. Sort mode and message are untouched. -/
theorem arrow_keys_stay_in_range {σ : Type} (kill : σ → Int → Int → Int × σ) (n : Int)
    (processes : List Process) (ch now : Int) (st : UiState) (w : World σ)
    (hch : ch = KEY_UP ∨ ch = KEY_DOWN)
    (hn : -2147483648 < n ∧ n < 2147483648)
    (hlen : processes.length < 2147483648)
    (hsel : 0 ≤ st.selectedProcess ∧
      st.selectedProcess ≤ max 0 (min n processes.length - 1)) :
    ∃ st1, handleKey kill n processes ch now st w = .continue st1 w ∧
      0 ≤ st1.selectedProcess ∧
      st1.selectedProcess ≤ max 0 (min n processes.length - 1) ∧
      |st1.selectedProcess - st.selectedProcess| ≤ 1 ∧
      (processes.length = 0 → st1.selectedProcess = 0) ∧
      st1.currentSortMode = st.currentSortMode ∧ st1.message = st.message ∧
      st1.messageTime = st.messageTime := by
  obtain ⟨hn1, hn2⟩ := hn
  obtain ⟨hs1, hs2⟩ := hsel
  have hlen' : (processes.length : Int) < 2147483648 := by exact_mod_cast hlen
  have hlen0 : (0 : Int) ≤ processes.length := Int.natCast_nonneg _
  have hw1 : wrapInt (n - 1) = n - 1 := wrapInt_id (by omega) (by omega)
  have hw2 : wrapInt (processes.length : Int) = processes.length := wrapInt_id (by omega) hlen'
  have hw3 : wrapInt ((processes.length : Int) - 1) = processes.length - 1 :=
    wrapInt_id (by omega) (by omega)
  rcases hch with rfl | rfl
  · by_cases h : st.selectedProcess > 0
    · refine ⟨{ st with selectedProcess := wrapInt (st.selectedProcess - 1) }, ?_, ?_⟩
      · simp [handleKey, KEY_UP, keyOf, h]
      · have hw : wrapInt (st.selectedProcess - 1) = st.selectedProcess - 1 :=
          wrapInt_id (by omega) (by omega)
        simp only [hw]
        refine ⟨by omega, by omega, ?_, by omega, by simp⟩
        rw [abs_le]; constructor <;> omega
    · refine ⟨st, ?_, hs1, hs2, by simp, by omega, rfl, rfl, rfl⟩
      simp [handleKey, KEY_UP, keyOf, h]
  · by_cases h : st.selectedProcess < wrapInt (n - 1) ∧
        st.selectedProcess < wrapInt (wrapInt processes.length - 1)
    · refine ⟨{ st with selectedProcess := wrapInt (st.selectedProcess + 1) }, ?_, ?_⟩
      · simp [handleKey, KEY_UP, KEY_DOWN, keyOf, h]
      · rw [hw1, hw2, hw3] at h
        have hw : wrapInt (st.selectedProcess + 1) = st.selectedProcess + 1 :=
          wrapInt_id (by omega) (by omega)
        simp only [hw]
        refine ⟨by omega, by omega, ?_, by omega, by simp⟩
        rw [abs_le]; constructor <;> omega
    · refine ⟨st, ?_, hs1, hs2, by simp, by omega, rfl, rfl, rfl⟩
      simp only [handleKey, KEY_UP, KEY_DOWN, keyOf, h]
      simp

/-- Claim C7. Whatever the sort mode and the selected index were, the keys `c`/`C`, `m`/`M` and
`p`/`P` set the sort mode to CPU, RAM and PID respectively and the selected index to 0 (and
store the message that names the new order). -/
theorem sort_keys_reset_selection {σ : Type} (kill : σ → Int → Int → Int × σ) (n : Int)
    (processes : List Process) (now : Int) (st : UiState) (w : World σ) :
    (∀ ch, ch = keyOf 'c' ∨ ch = keyOf 'C' →
      handleKey kill n processes ch now st w =
        .continue { currentSortMode := .SORT_CPU, selectedProcess := 0,
                    message := "Sorting by CPU Usage".toList, messageTime := now } w) ∧
    (∀ ch, ch = keyOf 'm' ∨ ch = keyOf 'M' →
      handleKey kill n processes ch now st w =
        .continue { currentSortMode := .SORT_RAM, selectedProcess := 0,
                    message := "Sorting by Memory/RAM Usage".toList, messageTime := now } w) ∧
    (∀ ch, ch = keyOf 'p' ∨ ch = keyOf 'P' →
      handleKey kill n processes ch now st w =
        .continue { currentSortMode := .SORT_PID, selectedProcess := 0,
                    message := "Sorting by Process ID (PID)".toList, messageTime := now } w) := by
  refine ⟨?_, ?_, ?_⟩ <;> intro ch hch <;> rcases hch with rfl | rfl <;>
    simp [handleKey, keyOf]

/-! ## Message panel -/

/-- The truncated number of elapsed seconds is below 3 exactly when less than three seconds
of clock ticks have passed. -/
theorem elapsed_lt_three (d : Int) :
    Int.tdiv d ticksPerSecond < 3 ↔ d < 3 * ticksPerSecond := by
  unfold ticksPerSecond
  by_cases h : 0 ≤ d
  · rw [Int.tdiv_eq_ediv h (by decide)]; omega
  · have h1 : 0 ≤ -d := by omega
    have h3 : Int.tdiv d 1000000000 = -(Int.tdiv (-d) 1000000000) := by
      rw [Int.neg_tdiv, neg_neg]
    have h4 := Int.tdiv_nonneg h1 (show (0 : Int) ≤ 1000000000 by decide)
    constructor <;> intro _ <;> omega

theorem messagePanel_stored (msg : Str) (hmsg : msg ≠ []) (T now : Int) :
    messagePanel msg T now =
      if now - T < 3 * ticksPerSecond then (.drawn msg, msg) else (.cleared, []) := by
  simp only [messagePanel, hmsg, ne_eq, not_false_eq_true, if_true, elapsed_lt_three]

theorem messagePanel_empty (T now : Int) : messagePanel [] T now = (.untouched, []) := by
  simp [messagePanel]

theorem messageTrace_empty (T : Int) :
    ∀ (ts : List Int) (i : Nat) (t : Int), ts[i]? = some t →
      (messageTrace [] T ts)[i]? = some (.untouched, []) := by
  intro ts
  induction ts with
  | nil => intro i t h; simp at h
  | cons a ts ih =>
    intro i t h
    cases i with
    | zero => simp [messageTrace, messagePanel_empty]
    | succ k =>
      simp only [messageTrace, messagePanel_empty, List.getElem?_cons_succ] at h ⊢
      exact ih k t h

/-- Claim C8. A message stored at clock reading `T` and not replaced, checked by renders at
the non-decreasing clock readings `ts`: the render at `t` draws it when `t - T` is at most two
seconds and does not draw it when `t - T` is at least four seconds; the first render at three
seconds or more wipes the window and empties the stored message, and every render after such
a render leaves the window untouched, the stored message staying empty. -/
theorem message_lifetime (msg : Str) (hmsg : msg ≠ []) (T : Int) (ts : List Int)
    (hmono : ts.Pairwise (· ≤ ·)) (i : Nat) (t : Int) (hi : ts[i]? = some t) :
    ∃ d stored, (messageTrace msg T ts)[i]? = some (d, stored) ∧
      (t - T ≤ 2 * ticksPerSecond → d = .drawn msg ∧ stored = msg) ∧
      (4 * ticksPerSecond ≤ t - T → ∀ text, d ≠ .drawn text) ∧
      (3 * ticksPerSecond ≤ t - T →
        (∀ j tj, j < i → ts[j]? = some tj → tj - T < 3 * ticksPerSecond) →
        d = .cleared ∧ stored = []) ∧
      (∀ j tj, j < i → ts[j]? = some tj → 3 * ticksPerSecond ≤ tj - T →
        d = .untouched ∧ stored = []) := by
  induction ts generalizing i with
  | nil => simp at hi
  | cons a ts ih =>
    rw [List.pairwise_cons] at hmono
    cases i with
    | zero =>
      simp only [List.getElem?_cons_zero, Option.some.injEq] at hi
      subst hi
      refine ⟨(messagePanel msg T a).1, (messagePanel msg T a).2, by simp [messageTrace], ?_⟩
      rw [messagePanel_stored msg hmsg]
      unfold ticksPerSecond
      refine ⟨?_, ?_, ?_, ?_⟩
      · intro h; rw [if_pos (by omega)]; exact ⟨rfl, rfl⟩
      · intro h text; rw [if_neg (by omega)]; simp
      · intro h _; rw [if_neg (by omega)]; exact ⟨rfl, rfl⟩
      · intro j tj hj; omega
    | succ k =>
      simp only [List.getElem?_cons_succ] at hi
      have hat : a ≤ t := hmono.1 t (List.getElem?_mem hi)
      by_cases hlt : a - T < 3 * ticksPerSecond
      · obtain ⟨d, stored, h0, h1, h2, h3, h4⟩ := ih hmono.2 k hi
        refine ⟨d, stored, ?_, h1, h2, ?_, ?_⟩
        · simp only [messageTrace, List.getElem?_cons_succ]
          rw [messagePanel_stored msg hmsg, if_pos hlt]
          exact h0
        · intro h hall
          exact h3 h (fun j tj hj hjt => hall (j + 1) tj (by omega) (by simpa using hjt))
        · intro j tj hj hjt hge
          cases j with
          | zero =>
            simp only [List.getElem?_cons_zero, Option.some.injEq] at hjt
            subst hjt
            omega
          | succ j =>
            exact h4 j tj (by omega) (by simpa using hjt) hge
      · have hp : messagePanel msg T a = (.cleared, []) := by
          rw [messagePanel_stored msg hmsg, if_neg hlt]
        refine ⟨.untouched, [], ?_, ?_, ?_, ?_, ?_⟩
        · simp only [messageTrace, List.getElem?_cons_succ, hp]
          exact messageTrace_empty T ts k t hi
        · intro h; unfold ticksPerSecond at hlt h; omega
        · intro _ text; simp
        · intro _ hall
          have := hall 0 a (by omega) (by simp)
          omega
        · intro _ _ _ _ _; exact ⟨rfl, rfl⟩

/-- The statement of `message_lifetime` for the message of the key `c` stored at reading 0 and
renders after 1, 2.5, 3.2 and 5 seconds, at the third of them. -/
theorem message_lifetime_witness :
    "Sorting by CPU Usage".toList ≠ [] ∧
    [1000000000, 2500000000, 3200000000, 5000000000].Pairwise (fun (a b : Int) => a ≤ b) ∧
    ([1000000000, 2500000000, 3200000000, 5000000000] : List Int)[2]? = some 3200000000 ∧
    ∃ d stored, (messageTrace "Sorting by CPU Usage".toList 0
        [1000000000, 2500000000, 3200000000, 5000000000])[2]? = some (d, stored) ∧
      (3200000000 - 0 ≤ 2 * ticksPerSecond →
        d = .drawn "Sorting by CPU Usage".toList ∧ stored = "Sorting by CPU Usage".toList) ∧
      (4 * ticksPerSecond ≤ 3200000000 - 0 → ∀ text, d ≠ .drawn text) ∧
      (3 * ticksPerSecond ≤ 3200000000 - 0 →
        (∀ j tj, j < 2 →
          ([1000000000, 2500000000, 3200000000, 5000000000] : List Int)[j]? = some tj →
          tj - 0 < 3 * ticksPerSecond) →
        d = .cleared ∧ stored = []) ∧
      (∀ j tj, j < 2 →
        ([1000000000, 2500000000, 3200000000, 5000000000] : List Int)[j]? = some tj →
        3 * ticksPerSecond ≤ tj - 0 → d = .untouched ∧ stored = []) :=
  ⟨by decide, by decide, by decide,
    message_lifetime "Sorting by CPU Usage".toList (by decide) 0
      [1000000000, 2500000000, 3200000000, 5000000000] (by decide) 2 3200000000 (by decide)⟩

/-- A key that is no letter of the dispatch table leaves the message, its time and the sort
mode as they are, and the loop running. -/
theorem handleKey_quiet {σ : Type} (kill : σ → Int → Int → Int × σ) (n : Int)
    (processes : List Process) (ch now : Int) (st : UiState) (w : World σ)
    (hq : ch ∉ letterKeys) :
    ∃ st1, handleKey kill n processes ch now st w = .continue st1 w ∧
      st1.message = st.message ∧ st1.messageTime = st.messageTime ∧
      st1.currentSortMode = st.currentSortMode := by
  simp only [letterKeys, List.mem_cons, List.mem_singleton, not_or, List.mem_nil_iff,
    or_false] at hq
  obtain ⟨h1, h2, h3, h4, h5, h6, h7, h8, h9, h10⟩ := hq
  simp only [handleKey, h1, h2, h3, h4, h5, h6, h7, h8, h9, h10, or_self, if_false]
  split
  · split <;> exact ⟨_, rfl, rfl, rfl, rfl⟩
  · split
    · split <;> exact ⟨_, rfl, rfl, rfl, rfl⟩
    · exact ⟨_, rfl, rfl, rfl, rfl⟩

/-- In a run of the loop in which no key is a letter of the dispatch table, what the frames do
to the message window is the trace of the message block at the render times. -/
theorem displayLoop_messageDraws {σ : Type} (env : Env σ) :
    ∀ (inputs : List TickInput) (st : UiState) (w : World σ) (frames : List Frame)
      (st1 : UiState) (w1 : World σ),
      (∀ inp ∈ inputs, inp.ch ∉ letterKeys) →
      displayLoop env st w inputs = (frames, .continue st1 w1) →
      frames.map (fun f => f.messageDraw) =
        (messageTrace st.message st.messageTime (inputs.map (fun inp => inp.renderTime))).map
          Prod.fst := by
  intro inputs
  induction inputs with
  | nil =>
    intro st w frames st1 w1 _ h
    simp only [displayLoop, Prod.mk.injEq] at h
    simp [messageTrace, ← h.1]
  | cons inp rest ih =>
    intro st w frames st1 w1 hq h
    have hq0 := hq inp (List.mem_cons_self _ _)
    have hqr : ∀ x ∈ rest, x.ch ∉ letterKeys := fun x hx => hq x (List.mem_cons_of_mem _ hx)
    simp only [displayLoop] at h
    unfold iteration at h
    cases hd : DisplayProcesses env.sort env.stof env.fl st.currentSortMode st.selectedProcess
        inp.processes env.maxx env.n with
    | none => simp [hd] at h
    | some rows =>
      simp only [hd] at h
      by_cases hch : inp.ch ≠ ERR
      · obtain ⟨st2, hk, hm, ht, _⟩ := handleKey_quiet env.kill env.n inp.processes inp.ch
          inp.keyTime { st with message :=
            (messagePanel st.message st.messageTime inp.renderTime).2 } w hq0
        simp only [hch, ne_eq, not_false_eq_true, if_true, hk] at h
        simp only [Prod.mk.injEq] at h
        obtain ⟨hf, ho⟩ := h
        have := ih st2 w _ st1 w1 hqr (Prod.ext rfl ho)
        rw [← hf]
        simp only [Option.toList, List.singleton_append, List.map_cons, messageTrace,
          List.map_cons, this, hm, ht]
      · simp only [hch, if_false, Prod.mk.injEq] at h
        obtain ⟨hf, ho⟩ := h
        have := ih _ w _ st1 w1 hqr (Prod.ext rfl ho)
        rw [← hf]
        simp only [Option.toList, List.singleton_append, List.map_cons, messageTrace,
          List.map_cons, this]

/-! ## Selection invariant of the loop -/

/-- Handling a key keeps the selected index at or above 0 and at or below
`max 0 (min n m - 1)`, for `m` at least the length of the current list. -/
theorem handleKey_selection {σ : Type} (kill : σ → Int → Int → Int × σ) (n : Int)
    (processes : List Process) (ch now : Int) (st st1 : UiState) (w w1 : World σ)
    (hn : -2147483648 < n ∧ n < 2147483648) (hlen : processes.length < 2147483648)
    (m : Int) (h0 : 0 ≤ st.selectedProcess)
    (hm : st.selectedProcess ≤ max 0 (min n m - 1))
    (hk : handleKey kill n processes ch now st w = .continue st1 w1) :
    0 ≤ st1.selectedProcess ∧
      st1.selectedProcess ≤ max 0 (min n (max m processes.length) - 1) := by
  obtain ⟨hn1, hn2⟩ := hn
  have hlen' : (processes.length : Int) < 2147483648 := by exact_mod_cast hlen
  have hlen0 : (0 : Int) ≤ processes.length := Int.natCast_nonneg _
  have hw1 : wrapInt (n - 1) = n - 1 := wrapInt_id (by omega) (by omega)
  have hw2 : wrapInt (processes.length : Int) = processes.length := wrapInt_id (by omega) hlen'
  have hw3 : wrapInt ((processes.length : Int) - 1) = processes.length - 1 :=
    wrapInt_id (by omega) (by omega)
  unfold handleKey at hk
  by_cases c1 : ch = keyOf 'q' ∨ ch = keyOf 'Q'
  · rw [if_pos c1] at hk; injection hk
  rw [if_neg c1] at hk
  by_cases c2 : ch = keyOf 'c' ∨ ch = keyOf 'C'
  · rw [if_pos c2] at hk; injection hk with h1 h2; subst h1; simp
  rw [if_neg c2] at hk
  by_cases c3 : ch = keyOf 'm' ∨ ch = keyOf 'M'
  · rw [if_pos c3] at hk; injection hk with h1 h2; subst h1; simp
  rw [if_neg c3] at hk
  by_cases c4 : ch = keyOf 'p' ∨ ch = keyOf 'P'
  · rw [if_pos c4] at hk; injection hk with h1 h2; subst h1; simp
  rw [if_neg c4] at hk
  clear c1 c2 c3 c4
  by_cases c5 : ch = KEY_UP
  · rw [if_pos c5] at hk
    by_cases c6 : st.selectedProcess > 0
    · rw [if_pos c6] at hk; injection hk with h1 h2; subst h1
      have hw : wrapInt (st.selectedProcess - 1) = st.selectedProcess - 1 :=
        wrapInt_id (by omega) (by omega)
      simp only [hw]
      omega
    · rw [if_neg c6] at hk; injection hk with h1 h2; subst h1; omega
  rw [if_neg c5] at hk
  by_cases c7 : ch = KEY_DOWN
  · rw [if_pos c7] at hk
    by_cases c8 : st.selectedProcess < wrapInt (n - 1) ∧
        st.selectedProcess < wrapInt (wrapInt processes.length - 1)
    · rw [if_pos c8] at hk; injection hk with h1 h2; subst h1
      rw [hw1, hw2, hw3] at c8
      have hw : wrapInt (st.selectedProcess + 1) = st.selectedProcess + 1 :=
        wrapInt_id (by omega) (by omega)
      simp only [hw]
      omega
    · rw [if_neg c8] at hk; injection hk with h1 h2; subst h1; omega
  rw [if_neg c7] at hk
  by_cases c9 : ch = keyOf 'k' ∨ ch = keyOf 'K'
  · rw [if_pos c9] at hk
    clear c9
    by_cases c10 : st.selectedProcess < wrapInt processes.length
    · rw [if_pos c10] at hk
      cases hp : processes[toSizeT st.selectedProcess]? with
      | none => rw [hp] at hk; injection hk
      | some p =>
        rw [hp] at hk
        injection hk with h1 h2; subst h1
        exact ⟨h0, by simp only; omega⟩
    · rw [if_neg c10] at hk; injection hk with h1 h2; subst h1; omega
  rw [if_neg c9] at hk
  clear c9
  injection hk with h1 h2; subst h1; omega

/-- The bounds on the selected index along a run of the loop. -/
theorem displayLoop_selection {σ : Type} (env : Env σ)
    (hn : -2147483648 < env.n ∧ env.n < 2147483648) :
    ∀ (inputs : List TickInput) (st st1 : UiState) (w w1 : World σ) (m : Nat),
      (∀ inp ∈ inputs, inp.processes.length < 2147483648) →
      0 ≤ st.selectedProcess → st.selectedProcess ≤ max 0 (min env.n m - 1) →
      (displayLoop env st w inputs).2 = .continue st1 w1 →
      0 ≤ st1.selectedProcess ∧
        st1.selectedProcess ≤ max 0 (min env.n (max m (maxCount inputs) : Nat) - 1) := by
  intro inputs
  induction inputs with
  | nil =>
    intro st st1 w w1 m _ h0 hm hrun
    simp only [displayLoop, Outcome.continue.injEq] at hrun
    obtain ⟨rfl, _⟩ := hrun
    simp only [maxCount]
    exact ⟨h0, by omega⟩
  | cons inp rest ih =>
    intro st st1 w w1 m hlen h0 hm hrun
    have hl := hlen inp (List.mem_cons_self _ _)
    have hlr : ∀ x ∈ rest, x.processes.length < 2147483648 :=
      fun x hx => hlen x (List.mem_cons_of_mem _ hx)
    have hstep : ∀ st2 w2, (iteration env st w inp).2 = .continue st2 w2 →
        0 ≤ st2.selectedProcess ∧
          st2.selectedProcess ≤ max 0 (min env.n (max m inp.processes.length : Nat) - 1) := by
      intro st2 w2 hit
      unfold iteration at hit
      split at hit
      · cases hit
      · simp only at hit
        split at hit
        · have := handleKey_selection env.kill env.n inp.processes inp.ch inp.keyTime _ st2 w w2
            hn hl m (by exact h0) (by exact hm) hit
          refine ⟨this.1, ?_⟩
          have h2 := this.2
          push_cast
          exact h2
        · cases hit
          simp only
          push_cast
          omega
    simp only [displayLoop] at hrun
    cases hit : iteration env st w inp with
    | mk f out =>
      cases out with
      | «continue» st2 w2 =>
        simp only [hit] at hrun
        obtain ⟨h20, h2m⟩ := hstep st2 w2 (by rw [hit])
        have := ih st2 st1 w2 w1 (max m inp.processes.length) hlr h20 h2m hrun
        refine ⟨this.1, ?_⟩
        have h3 := this.2
        simp only [maxCount]
        have e : max (max m inp.processes.length) (maxCount rest) =
            max m (max inp.processes.length (maxCount rest)) := by omega
        rw [← e]
        exact h3
      | quit w2 => simp [hit] at hrun
      | fault => simp [hit] at hrun

/-- Claim C6, amended. In every state that the loop reaches from its initial state, the
selected index is at least 0 and at most `max 0 (min n m - 1)`, where `m` is the largest process
count of the iterations run so far: the index is bounded when a key is handled and is not
clamped again when a later list is shorter. Hence it is within
`[0, max 0 (min n count - 1)]` for every list at least as long as all earlier ones. -/
theorem selection_bound {σ : Type} (env : Env σ)
    (hn : -2147483648 < env.n ∧ env.n < 2147483648) (t0 : Int) (w : World σ)
    (inputs : List TickInput)
    (hlen : ∀ inp ∈ inputs, inp.processes.length < 2147483648)
    (st1 : UiState) (w1 : World σ)
    (hrun : (Display env t0 w inputs).2 = .continue st1 w1) :
    0 ≤ st1.selectedProcess ∧
    st1.selectedProcess ≤ max 0 (min env.n (maxCount inputs) - 1) ∧
    ∀ ps : List Process, (∀ inp ∈ inputs, inp.processes.length ≤ ps.length) →
      st1.selectedProcess ≤ max 0 (min env.n ps.length - 1) := by
  have h := displayLoop_selection env hn inputs (initialState t0) st1 w w1 0 hlen
    (by simp [initialState]) (by simp [initialState]) hrun
  simp only [Nat.zero_max] at h
  refine ⟨h.1, h.2, ?_⟩
  intro ps hps
  have hmc : maxCount inputs ≤ ps.length := by
    clear h hrun hlen
    induction inputs with
    | nil => simp [maxCount]
    | cons a rest ih =>
      simp only [maxCount]
      have h1 := hps a (List.mem_cons_self _ _)
      have h2 := ih (fun x hx => hps x (List.mem_cons_of_mem _ hx))
      omega
  have h2 := h.2
  omega

/-! ## Concrete runs -/

/-- Claim C6, counterexample. After two iterations on three processes with the down arrow
pressed in each, the selected index is 2; when the next list has one process the index
exceeds its last valid index 0, and the row loop highlights no row. -/
theorem selection_counterexample :
    (Display demoEnv 0 demoWorld shrinkingRun).2 =
      .continue { currentSortMode := .SORT_CPU, selectedProcess := 2, message := [],
                  messageTime := 0 } demoWorld ∧
    ¬ ((2 : Int) ≤ min demoEnv.n ((snapshot3.take 1).length : Int) - 1) ∧
    (DisplayProcesses demoEnv.sort demoEnv.stof demoEnv.fl .SORT_CPU 2 (snapshot3.take 1)
      demoEnv.maxx demoEnv.n).map (List.map Row.highlighted) = some [false] := by
  refine ⟨by decide, by decide, by decide⟩

/-- The statement of `selection_bound` for the concrete run of two iterations. -/
theorem selection_bound_witness :
    (-2147483648 < demoEnv.n ∧ demoEnv.n < 2147483648) ∧
    (∀ inp ∈ shrinkingRun, inp.processes.length < 2147483648) ∧
    (Display demoEnv 0 demoWorld shrinkingRun).2 =
      .continue { currentSortMode := .SORT_CPU, selectedProcess := 2, message := [],
                  messageTime := 0 } demoWorld ∧
    (0 ≤ (2 : Int) ∧ (2 : Int) ≤ max 0 (min demoEnv.n (maxCount shrinkingRun) - 1) ∧
      ∀ ps : List Process, (∀ inp ∈ shrinkingRun, inp.processes.length ≤ ps.length) →
        (2 : Int) ≤ max 0 (min demoEnv.n ps.length - 1)) :=
  ⟨by decide, by decide, by decide,
    selection_bound demoEnv (by decide) 0 demoWorld shrinkingRun (by decide)
      { currentSortMode := .SORT_CPU, selectedProcess := 2, message := [], messageTime := 0 }
      demoWorld (by decide)⟩

/-- The statement of `arrow_keys_stay_in_range` for the down arrow on the example snapshot,
ten rows and the initial state. -/
theorem arrow_keys_witness :
    (KEY_DOWN = KEY_UP ∨ KEY_DOWN = KEY_DOWN) ∧
    (-2147483648 < (10 : Int) ∧ (10 : Int) < 2147483648) ∧
    snapshot3.length < 2147483648 ∧
    (0 ≤ (initialState 0).selectedProcess ∧
      (initialState 0).selectedProcess ≤ max 0 (min 10 (snapshot3.length : Int) - 1)) ∧
    ∃ st1, handleKey killUnless 10 snapshot3 KEY_DOWN 0 (initialState 0) demoWorld =
        .continue st1 demoWorld ∧
      0 ≤ st1.selectedProcess ∧
      st1.selectedProcess ≤ max 0 (min 10 (snapshot3.length : Int) - 1) ∧
      |st1.selectedProcess - (initialState 0).selectedProcess| ≤ 1 ∧
      (snapshot3.length = 0 → st1.selectedProcess = 0) ∧
      st1.currentSortMode = (initialState 0).currentSortMode ∧
      st1.message = (initialState 0).message ∧
      st1.messageTime = (initialState 0).messageTime :=
  ⟨by decide, by decide, by decide, by decide,
    arrow_keys_stay_in_range killUnless 10 snapshot3 KEY_DOWN 0 (initialState 0) demoWorld
      (by decide) (by decide) (by decide) (by decide)⟩

/-- The statement of `SortProcesses_ties` for the insertion sort and the two tied records. -/
theorem SortProcesses_ties_witness :
    ConformingSort insertionSortLate ∧
    (SortMode.SORT_CPU = .SORT_RAM → ∀ p ∈ tiedPair, (stofDigits p.ram).isSome = true) ∧
    (PreservesTies stofDigits .SORT_CPU tiedPair (stableSort stofDigits .SORT_CPU tiedPair) ∧
    ∃ ys, SortProcesses insertionSortLate stofDigits .SORT_CPU tiedPair = some ys ∧
      ys.Perm (stableSort stofDigits .SORT_CPU tiedPair) ∧
      ys.map (sortKey stofDigits .SORT_CPU) =
        (stableSort stofDigits .SORT_CPU tiedPair).map (sortKey stofDigits .SORT_CPU) ∧
      ((∀ a ∈ tiedPair, ∀ b ∈ tiedPair,
          sortKey stofDigits .SORT_CPU a = sortKey stofDigits .SORT_CPU b → a = b) →
        ys = stableSort stofDigits .SORT_CPU tiedPair ∧
          PreservesTies stofDigits .SORT_CPU tiedPair ys)) :=
  ⟨insertionSortLate_conforming, by decide,
    SortProcesses_ties insertionSortLate insertionSortLate_conforming stofDigits .SORT_CPU
      tiedPair (by decide)⟩

/-- The statement of `ProgressBar_shape` for exact arithmetic and the fractions 1/4 and
1/2. -/
theorem ProgressBar_shape_witness :
    Monotone (id : ℚ → ℚ) ∧ (1 / 4 : ℚ) ≤ 1 / 2 ∧
    ((ProgressBar id (1 / 4)).take 2 = "0%".toList ∧
    (∀ i : Nat, i < 50 →
      (ProgressBar id (1 / 4))[2 + i]? =
        some (if (i : ℚ) ≤ id ((1 / 4 : ℚ) * 50) then '|' else ' ')) ∧
    (ProgressBar id (1 / 4))[52]? = some ' ' ∧
    ((ProgressBar id (1 / 4)).drop 53).length = 4 + 5 ∧
    (ProgressBar id (1 / 4)).drop 57 = "/100%".toList ∧
    (ProgressBar id (1 / 4)).length = 62 ∧
    (ProgressBar id (1 / 2)).length = 62 ∧
    filledCells id (1 / 4) ≤ filledCells id (1 / 2)) :=
  ⟨monotone_id, by norm_num, ProgressBar_shape id monotone_id (1 / 4) (1 / 2) (by norm_num)⟩

/-- Claim C10, the code at the failing inputs. In a window 100 columns wide the command text is
cut to 54 characters, two more than the `100 - 48` that remain from column 48; in a window 40
columns wide the count `40 - 46` wraps to `2 ^ 64 - 6` and the command is not cut at all. -/
theorem command_clipped_at_46 (fl : ℚ → ℚ) (selectedProcess : Int) (i : Nat) (p : Process) :
    (drawRow fl selectedProcess 100 i p).command = p.command.take 54 ∧
    (drawRow fl selectedProcess 40 i p).command = p.command.take 18446744073709551610 ∧
    (drawRow fl selectedProcess 100 i
      { p with command := List.replicate 60 'x' }).command.length = 54 ∧
    ¬ ((54 : Int) ≤ max 0 (100 - 48)) ∧
    (drawRow fl selectedProcess 40 i
      { p with command := List.replicate 60 'x' }).command.length = 60 ∧
    ¬ ((60 : Int) ≤ max 0 (40 - 48)) := by
  have h100 : toSizeT (wrapInt (100 - 46)) = 54 := by decide
  have h40 : toSizeT (wrapInt (40 - 46)) = 18446744073709551610 := by decide
  refine ⟨?_, ?_, ?_, by decide, ?_, by decide⟩
  · simp only [drawRow, substr0, h100]
    rw [List.take_eq_take]
    simp
  · simp only [drawRow, substr0, h40]
    rw [List.take_eq_take]
    simp
  · simp only [drawRow, substr0, h100]
    simp
  · simp only [drawRow, substr0, h40]
    simp

theorem snapshot3_cpu_sorted :
    ∀ ys ∈ snapshot3.permutations', ys.Pairwise (fun a b => a.cpu ≥ b.cpu) →
      ys = [snapshot3[1], snapshot3[2], snapshot3[0]] := by
  decide

/-- The key `k` with a selected index inside the list: `KillProcess` is called with the pid of
the record at that index of the list fetched by `Display`, which is in the provider's order,
and a message is stored. -/
theorem kill_key_target {σ : Type} (kill : σ → Int → Int → Int × σ) (n : Int)
    (processes : List Process) (ch now : Int) (st : UiState) (w : World σ) (i : Nat)
    (p : Process) (hch : ch = keyOf 'k' ∨ ch = keyOf 'K')
    (hsel : st.selectedProcess = i) (hp : processes[i]? = some p)
    (hlen : processes.length < 2147483648) :
    handleKey kill n processes ch now st w =
      .continue
        { st with
          message :=
            if (KillProcess kill w p.pid).1 then
              "Process ".toList ++ to_string_int p.pid ++ " killed successfully!".toList
            else "Failed to kill process ".toList ++ to_string_int p.pid ++
              ". Try with sudo.".toList
          messageTime := now }
        (KillProcess kill w p.pid).2 ∧
      (KillProcess kill w p.pid).2.sent.take (w.sent.length + 1) =
        w.sent ++ [(p.pid, SIGTERM)] := by
  have hi : i < processes.length := by
    rcases List.getElem?_eq_some.mp hp with ⟨h, _⟩
    exact h
  have hw : wrapInt (processes.length : Int) = processes.length := by
    unfold wrapInt; omega
  have hts : toSizeT (i : Int) = i := by
    unfold toSizeT; omega
  have hlt : st.selectedProcess < wrapInt (processes.length : Int) := by
    rw [hw, hsel]; exact_mod_cast hi
  refine ⟨?_, ?_⟩
  · unfold handleKey
    have c1 : ¬ (ch = keyOf 'q' ∨ ch = keyOf 'Q') := by
      rcases hch with rfl | rfl <;> decide
    have c2 : ¬ (ch = keyOf 'c' ∨ ch = keyOf 'C') := by
      rcases hch with rfl | rfl <;> decide
    have c3 : ¬ (ch = keyOf 'm' ∨ ch = keyOf 'M') := by
      rcases hch with rfl | rfl <;> decide
    have c4 : ¬ (ch = keyOf 'p' ∨ ch = keyOf 'P') := by
      rcases hch with rfl | rfl <;> decide
    have c5 : ¬ ch = KEY_UP := by
      rcases hch with rfl | rfl <;> decide
    have c6 : ¬ ch = KEY_DOWN := by
      rcases hch with rfl | rfl <;> decide
    rw [if_neg c1, if_neg c2, if_neg c3, if_neg c4, if_neg c5, if_neg c6, if_pos hch,
      if_pos hlt, hsel, hts, hp]
  · have htake : ∀ (l r : List (Int × Int)) (x : Int × Int),
        (l ++ x :: r).take (l.length + 1) = l ++ [x] := by
      intro l r x
      rw [List.take_append_eq_append_take]
      simp
    simp only [KillProcess, sysKill]
    split
    · simp
    · split <;> simp only [List.append_assoc, List.singleton_append] <;> exact htake _ _ _

/-- Claim C1, the code at the failing input. On the three-process snapshot sorted by CPU the
highlighted row 0 shows pid 20, while the key `k` sends `SIGTERM` to pid 10, the record at
index 0 of the provider's unsorted list. -/
theorem kill_uses_provider_order (sort : SortFn) (hs : ConformingSort sort)
    (stof : Str → Option ℚ) (fl : ℚ → ℚ) :
    ∃ frame st1 w1,
      iteration { sort := sort, stof := stof, fl := fl, kill := killUnless, maxx := 100,
                  n := 10 } (initialState 0) demoWorld killTick
        = (some frame, .continue st1 w1) ∧
      frame.rows.map (fun r => (r.pid, r.highlighted)) =
        [("20".toList, true), ("30".toList, false), ("10".toList, false)] ∧
      w1.sent = [(10, SIGTERM)] ∧
      st1.message = "Process 10 killed successfully!".toList := by
  obtain ⟨ys, hy, hperm, hsorted⟩ :=
    SortProcesses_conforming hs stof .SORT_CPU snapshot3 (by simp)
  have hys := snapshot3_cpu_sorted ys (List.mem_permutations'.mpr hperm)
    (hsorted.imp (fun {a b} h => (keyBefore_cpu stof a b).mp h))
  subst hys
  have hd : DisplayProcesses sort stof fl .SORT_CPU 0 snapshot3 100 10 =
      some (rowLoop fl 0 100 10 0 [snapshot3[1], snapshot3[2], snapshot3[0]]) := by
    simp only [DisplayProcesses, hy]
  refine ⟨{ rows := rowLoop fl 0 100 10 0 [snapshot3[1], snapshot3[2], snapshot3[0]],
            messageDraw := .untouched },
    { currentSortMode := .SORT_CPU, selectedProcess := 0,
      message := "Process 10 killed successfully!".toList, messageTime := 0 },
    { os := [], sent := [(10, SIGTERM)] }, ?_, ?_, rfl, rfl⟩
  · simp only [iteration, initialState, killTick, hd]
    rfl
  · rfl

/-- The statement of `kill_uses_provider_order` at the insertion sort. -/
theorem kill_uses_provider_order_witness :
    ConformingSort insertionSortLate ∧
    ∃ frame st1 w1,
      iteration { sort := insertionSortLate, stof := stofDigits, fl := id, kill := killUnless,
                  maxx := 100, n := 10 } (initialState 0) demoWorld killTick
        = (some frame, .continue st1 w1) ∧
      frame.rows.map (fun r => (r.pid, r.highlighted)) =
        [("20".toList, true), ("30".toList, false), ("10".toList, false)] ∧
      w1.sent = [(10, SIGTERM)] ∧
      st1.message = "Process 10 killed successfully!".toList :=
  ⟨insertionSortLate_conforming,
    kill_uses_provider_order insertionSortLate insertionSortLate_conforming stofDigits id⟩

/-- The same iteration with the sort of GNU libstdc++: the rows drawn and the signal sent. -/
theorem kill_uses_provider_order_libstdcxx :
    (iteration demoEnv (initialState 0) demoWorld killTick).1.map
        (fun frame => frame.rows.map (fun r => (r.pid, r.highlighted))) =
      some [("20".toList, true), ("30".toList, false), ("10".toList, false)] ∧
    (iteration demoEnv (initialState 0) demoWorld killTick).2 =
      .continue
        { currentSortMode := .SORT_CPU, selectedProcess := 0,
          message := "Process 10 killed successfully!".toList, messageTime := 0 }
        { os := [], sent := [(10, SIGTERM)] } := by
  constructor <;> decide

end SystemMonitor
